import Mathlib

/-!
# Verification of the squash-tracker rating engine and API state machine

A shallow embedding of the squash-tracker repository
(`src/models/squash.py` and `src/routes/squash.py`) together with proofs
about the embedded operations.

Modelling conventions:
* Python's float arithmetic is idealized as exact rational arithmetic (`ℚ`).
  The transcendental `10 ** ((elo2 - elo1) / 400)` is abstracted as an
  explicit function parameter `tenPow : ℚ → ℚ` (applied to the exponent
  `(elo2 - elo1) / 400`); theorems assume only the facts about it they
  need (`tenPow 0 = 1`, nonnegativity), which hold for the real function
  `x ↦ 10 ^ x`.
* Python's `int(...)` conversion truncates toward zero; it is modelled by
  `truncQ` below.
* The SQLAlchemy database is modelled as association lists keyed by row id.
  A route handler becomes a pure function `DB → ... → ApiResult × DB`;
  an early `return` before `db.session.commit()` leaves the database
  unchanged (the uncommitted ORM mutations are rolled back at request
  teardown), so the returned `DB` is the original one on every
  non-success path.
-/

namespace Squash

/-- Truncation toward zero of a rational number, the semantics of Python's
`int(...)` applied to a float. -/
def truncQ (q : ℚ) : ℤ := q.num.tdiv q.den

/-! ## The rating engine (`Match.calculate_elo_changes`, models/squash.py) -/

/-- Embedding of `Match.calculate_elo_changes(elo1, elo2, score1, score2)`
from `src/models/squash.py` (lines 149-190).  `tenPow` stands for the float
computation `10 ** x`; the Python locals (`K`, `expected1`, `expected2`,
`total_points`, `actual1`, `actual2`, `point_diff`, `max_possible_diff`,
`diff_multiplier`) appear in the same order. -/
def calculate_elo_changes (tenPow : ℚ → ℚ) (elo1 elo2 : ℤ) (score1 score2 : ℤ) : ℤ × ℤ :=
  let K : ℚ := 32
  let expected1 : ℚ := 1 / (1 + tenPow (((elo2 : ℚ) - (elo1 : ℚ)) / 400))
  let expected2 : ℚ := 1 - expected1
  let total_points : ℤ := score1 + score2
  let actual1 : ℚ := if total_points = 0 then 1/2 else (score1 : ℚ) / (total_points : ℚ)
  let actual2 : ℚ := if total_points = 0 then 1/2 else (score2 : ℚ) / (total_points : ℚ)
  let point_diff : ℤ := |score1 - score2|
  let max_possible_diff : ℤ := max score1 score2
  let diff_multiplier : ℚ :=
    if max_possible_diff = 0 then 1 else 1/2 + (point_diff : ℚ) / (max_possible_diff : ℚ)
  (truncQ (K * diff_multiplier * (actual1 - expected1)),
   truncQ (K * diff_multiplier * (actual2 - expected2)))

/-- The reference definition of §4.1 of the spec, written from the spec's
words: expected outcome `1/(1+10^((ratingB-ratingA)/400))`, actual
performance `scoreA/(scoreA+scoreB)` with both actuals `0.5` when both
scores are zero, margin multiplier `0.5 + |scoreA-scoreB|/max(scoreA,scoreB)`
when `max > 0` else `1.0`, `K = 32`, each delta truncated toward zero. -/
def computeDeltas (tenPow : ℚ → ℚ) (ratingA ratingB : ℤ) (scoreA scoreB : ℤ) : ℤ × ℤ :=
  let expectedA : ℚ := 1 / (1 + tenPow (((ratingB : ℚ) - (ratingA : ℚ)) / 400))
  let expectedB : ℚ := 1 - expectedA
  let actualA : ℚ :=
    if scoreA = 0 ∧ scoreB = 0 then 1/2 else (scoreA : ℚ) / ((scoreA : ℚ) + (scoreB : ℚ))
  let actualB : ℚ :=
    if scoreA = 0 ∧ scoreB = 0 then 1/2 else (scoreB : ℚ) / ((scoreA : ℚ) + (scoreB : ℚ))
  let multiplier : ℚ :=
    if 0 < max scoreA scoreB
    then 1/2 + (|scoreA - scoreB| : ℚ) / ((max scoreA scoreB : ℤ) : ℚ)
    else 1
  let K : ℚ := 32
  (truncQ (K * multiplier * (actualA - expectedA)),
   truncQ (K * multiplier * (actualB - expectedB)))

/-! ## Data model (models/squash.py)

Rows are embedded as records; the store (`db`) is association lists keyed
by row id (SQLAlchemy primary keys).  Timestamps are abstract `ℕ` ticks
supplied by the caller. -/

structure PlayerR where
  elo_rating : ℤ
  active : Bool
  deriving DecidableEq, Repr

structure MatchR where
  session_id : ℕ
  player1_id : ℕ
  player2_id : ℕ
  player1_score : Option ℤ
  player2_score : Option ℤ
  winner_id : Option ℕ
  player1_elo_before : Option ℤ
  player2_elo_before : Option ℤ
  player1_elo_change : Option ℤ
  player2_elo_change : Option ℤ
  completed_at : Option ℕ
  notes : Option String
  deriving DecidableEq, Repr

structure DB where
  players : List (ℕ × PlayerR)
  sessions : List ℕ
  matchRows : List (ℕ × MatchR)
  nextSessionId : ℕ
  nextMatchId : ℕ
  deriving DecidableEq, Repr

/-- Outcome of a route handler (HTTP status class). `serverError` stands for
an unhandled exception (500); with referential integrity intact it never
occurs. -/
inductive ApiResult where
  | ok
  | badRequest (msg : String)
  | notFound
  | serverError
  deriving DecidableEq, Repr

/-- `Match.is_completed`: both scores present. -/
def is_completed (m : MatchR) : Bool :=
  m.player1_score.isSome && m.player2_score.isSome

/-- Replace the row keyed `k` (ORM object write-back at commit). -/
def setRow {α : Type} (ps : List (ℕ × α)) (k : ℕ) (v : α) : List (ℕ × α) :=
  ps.map (fun e => if e.1 = k then (e.1, v) else e)

/-- `player.elo_rating += d` for the row keyed `pid`. -/
def applyDelta (ps : List (ℕ × PlayerR)) (pid : ℕ) (d : ℤ) : List (ℕ × PlayerR) :=
  ps.map (fun e => if e.1 = pid then (e.1, { e.2 with elo_rating := e.2.elo_rating + d }) else e)

/-- Embedding of `Match.update_scores` (models/squash.py lines 113-147):
snapshot before-ratings, store scores, set completion timestamp, determine
winner, compute deltas via `calculate_elo_changes`, and add the deltas to
the two (distinct, per the table's check constraint) player rows.  Returns
the updated match row and the two updated player rows. -/
def update_scores (tenPow : ℚ → ℚ) (m : MatchR) (p1 p2 : PlayerR) (s1 s2 : ℤ)
    (now : ℕ) : MatchR × PlayerR × PlayerR :=
  let before1 := p1.elo_rating
  let before2 := p2.elo_rating
  let winner : Option ℕ :=
    if s1 > s2 then some m.player1_id
    else if s2 > s1 then some m.player2_id
    else none
  let ch := calculate_elo_changes tenPow before1 before2 s1 s2
  ({ m with
      player1_elo_before := some before1
      player2_elo_before := some before2
      player1_score := some s1
      player2_score := some s2
      completed_at := some now
      winner_id := winner
      player1_elo_change := some ch.1
      player2_elo_change := some ch.2 },
   { p1 with elo_rating := p1.elo_rating + ch.1 },
   { p2 with elo_rating := p2.elo_rating + ch.2 })

/-! ## Route handlers (routes/squash.py)

Each handler is a pure function from the store (plus request data) to an
`ApiResult` and the post-request store.  An early `return` before
`db.session.commit()` produces the *original* store (the transaction is
rolled back at request teardown). -/

/-- A JSON value supplied for a score field: an integer or something else
(string, float, null, ...) that fails Python's `isinstance(x, int)`. -/
inductive JVal where
  | jint (n : ℤ)
  | jnonint
  deriving DecidableEq, Repr

/-- Body of `PUT /matches/{id}`: each field is `none` when the key is
absent.  A present `notes` key carries `none` for JSON null. -/
structure PutData where
  player1_score : Option JVal
  player2_score : Option JVal
  notes : Option (Option String)
  deriving DecidableEq, Repr

/-- Python falsiness of an optional string (`None` and `''` are falsy). -/
def strFalsy : Option String → Bool
  | none => true
  | some s => s == ""

/-- Python truthiness of an optional integer id (`None` and `0` are falsy). -/
def truthyNat : Option ℕ → Bool
  | none => false
  | some n => n != 0

/-- `match.notes = data['notes'].strip() if data['notes'] else None`
(only when the `notes` key is present). -/
def applyNotes (m : MatchR) (data : PutData) : MatchR :=
  match data.notes with
  | none => m
  | some v => { m with notes := if strFalsy v then none else v.map String.trim }

/-- Embedding of `update_match` (routes/squash.py lines 240-311).

Source structure: look the match up (404 if absent); *unconditionally*
revert the previously applied deltas when the match is completed and has
stored deltas; then, only if **both** score keys are present, validate the
scores (integers, non-negative — validation failure returns 400 with the
transaction rolled back) and re-run `update_scores`; finally apply a notes
update if the key is present and commit.  Accessing `match.player1` /
`match.player2` raises (→ 500) when a referenced player row is missing. -/
def update_match (tenPow : ℚ → ℚ) (db : DB) (match_id : ℕ) (data : PutData)
    (now : ℕ) : ApiResult × DB :=
  match db.matchRows.lookup match_id with
  | none => (ApiResult.notFound, db)
  | some m =>
    match db.players.lookup m.player1_id, db.players.lookup m.player2_id with
    | some p1, some p2 =>
      let reverting : Bool :=
        is_completed m && m.player1_elo_change.isSome && m.player2_elo_change.isSome
      let p1a := if reverting
        then { p1 with elo_rating := p1.elo_rating - m.player1_elo_change.getD 0 } else p1
      let p2a := if reverting
        then { p2 with elo_rating := p2.elo_rating - m.player2_elo_change.getD 0 } else p2
      let step : ApiResult ⊕ (MatchR × PlayerR × PlayerR) :=
        match data.player1_score, data.player2_score with
        | some v1, some v2 =>
          match v1, v2 with
          | JVal.jint s1, JVal.jint s2 =>
            if s1 < 0 ∨ s2 < 0 then Sum.inl (ApiResult.badRequest "Scores cannot be negative")
            else Sum.inr (update_scores tenPow m p1a p2a s1 s2 now)
          | _, _ => Sum.inl (ApiResult.badRequest "Scores must be integers")
        | _, _ => Sum.inr (m, p1a, p2a)
      match step with
      | Sum.inl e => (e, db)
      | Sum.inr (m', p1', p2') =>
        let m2 := applyNotes m' data
        (ApiResult.ok,
         { db with
            players := setRow (setRow db.players m.player1_id p1') m.player2_id p2'
            matchRows := setRow db.matchRows match_id m2 })
    | _, _ => (ApiResult.serverError, db)

/-- Body of `POST /matches`. -/
structure CreateData where
  session_id : Option ℕ
  player1_id : Option ℕ
  player2_id : Option ℕ
  player1_score : Option ℤ
  player2_score : Option ℤ
  notes : Option String
  deriving DecidableEq, Repr

/-- Embedding of `create_match` (routes/squash.py lines 171-238): required
ids (Python truthiness), distinct players, players and session must exist;
the match row stores the raw score fields; when both scores are present
`update_scores` runs (note: *no* integer/negativity validation on this
path).  Score fields are modelled as optional integers here. -/
def create_match (tenPow : ℚ → ℚ) (db : DB) (data : CreateData) (now : ℕ) :
    ApiResult × DB :=
  if !(truthyNat data.session_id && truthyNat data.player1_id && truthyNat data.player2_id)
  then (ApiResult.badRequest "session_id, player1_id, and player2_id are required", db)
  else
    let sid := data.session_id.getD 0
    let pid1 := data.player1_id.getD 0
    let pid2 := data.player2_id.getD 0
    if pid1 = pid2 then (ApiResult.badRequest "Players must be different", db)
    else
      match db.players.lookup pid1, db.players.lookup pid2 with
      | some p1, some p2 =>
        if sid ∈ db.sessions then
          let m0 : MatchR :=
            { session_id := sid, player1_id := pid1, player2_id := pid2,
              player1_score := data.player1_score, player2_score := data.player2_score,
              winner_id := none, player1_elo_before := none, player2_elo_before := none,
              player1_elo_change := none, player2_elo_change := none,
              completed_at := none,
              notes := if strFalsy data.notes then none else data.notes.map String.trim }
          match data.player1_score, data.player2_score with
          | some s1, some s2 =>
            let r := update_scores tenPow m0 p1 p2 s1 s2 now
            (ApiResult.ok,
             { db with players := setRow (setRow db.players pid1 r.2.1) pid2 r.2.2,
                       matchRows := db.matchRows ++ [(db.nextMatchId, r.1)],
                       nextMatchId := db.nextMatchId + 1 })
          | _, _ =>
            (ApiResult.ok,
             { db with matchRows := db.matchRows ++ [(db.nextMatchId, m0)],
                       nextMatchId := db.nextMatchId + 1 })
        else (ApiResult.notFound, db)
      | _, _ => (ApiResult.notFound, db)

/-- Embedding of `delete_match` (routes/squash.py lines 313-329): revert
the applied deltas when the match is completed with stored deltas, then
delete the row. -/
def delete_match (db : DB) (match_id : ℕ) : ApiResult × DB :=
  match db.matchRows.lookup match_id with
  | none => (ApiResult.notFound, db)
  | some m =>
    let players1 :=
      if is_completed m && m.player1_elo_change.isSome && m.player2_elo_change.isSome then
        applyDelta (applyDelta db.players m.player1_id (-(m.player1_elo_change.getD 0)))
          m.player2_id (-(m.player2_elo_change.getD 0))
      else db.players
    (ApiResult.ok,
     { db with players := players1,
               matchRows := db.matchRows.filter (fun e => e.1 != match_id) })

/-- The per-match delta reversal of `delete_session`'s loop: subtract each
stored delta from the referenced player's rating (each side guarded by its
own `is not None` check, modelled by `getD 0`). -/
def revertMatch (ps : List (ℕ × PlayerR)) (m : MatchR) : List (ℕ × PlayerR) :=
  let ps1 := if m.player1_elo_change.isSome
    then applyDelta ps m.player1_id (-(m.player1_elo_change.getD 0)) else ps
  if m.player2_elo_change.isSome
    then applyDelta ps1 m.player2_id (-(m.player2_elo_change.getD 0)) else ps1

/-- Embedding of `delete_session` (routes/squash.py lines 140-168): revert
the deltas of every completed match of the session, delete all the
session's matches, delete the session. -/
def delete_session (db : DB) (session_id : ℕ) : ApiResult × DB :=
  if session_id ∈ db.sessions then
    let completed_matches := (db.matchRows.map Prod.snd).filter
      (fun m => m.session_id == session_id && m.player1_score.isSome && m.player2_score.isSome)
    (ApiResult.ok,
     { db with players := completed_matches.foldl revertMatch db.players,
               matchRows := db.matchRows.filter (fun e => e.2.session_id != session_id),
               sessions := db.sessions.erase session_id })
  else (ApiResult.notFound, db)

/-- All unordered pairs of a list in the order produced by the double
index loop `for i in range(n): for j in range(i+1, n)` of `create_session`:
`(ids[0],ids[1]), (ids[0],ids[2]), ..., (ids[1],ids[2]), ...`. -/
def pairsOf : List ℕ → List (ℕ × ℕ)
  | [] => []
  | x :: xs => (xs.map (fun y => (x, y))) ++ pairsOf xs

/-- A fresh `UNSCORED` match row for a player pair. -/
def unscoredMatch (sid a b : ℕ) : MatchR :=
  { session_id := sid, player1_id := a, player2_id := b,
    player1_score := none, player2_score := none, winner_id := none,
    player1_elo_before := none, player2_elo_before := none,
    player1_elo_change := none, player2_elo_change := none,
    completed_at := none, notes := none }

/-- Attach consecutive fresh primary keys starting at `base`. -/
def withIds (base : ℕ) (l : List MatchR) : List (ℕ × MatchR) :=
  l.enum.map (fun e => (base + e.1, e.2))

/-- Embedding of `create_session` (routes/squash.py lines 100-138): at
least two ids; the number of *stored player rows whose id occurs in the
list* must equal the length of the list; then one session row plus one
unscored match per index pair `i < j` is created, all in one commit. -/
def create_session (db : DB) (player_ids : List ℕ) : ApiResult × DB :=
  if player_ids.length < 2 then (ApiResult.badRequest "At least 2 players are required", db)
  else
    let found := db.players.filter (fun e => player_ids.contains e.1)
    if found.length ≠ player_ids.length then (ApiResult.notFound, db)
    else
      let sid := db.nextSessionId
      let ms := (pairsOf player_ids).map (fun pr => unscoredMatch sid pr.1 pr.2)
      (ApiResult.ok,
       { db with sessions := db.sessions ++ [sid],
                 nextSessionId := sid + 1,
                 matchRows := db.matchRows ++ withIds db.nextMatchId ms,
                 nextMatchId := db.nextMatchId + ms.length })

/-! ## The accounting invariant (spec §3) -/

/-- The currently-applied delta of match `m` for player `pid`: its stored
per-side deltas when the match is completed, else nothing. -/
def deltaFor (pid : ℕ) (m : MatchR) : ℤ :=
  if is_completed m then
    (if m.player1_id = pid then m.player1_elo_change.getD 0 else 0)
    + (if m.player2_id = pid then m.player2_elo_change.getD 0 else 0)
  else 0

/-- Sum of the applied deltas of all currently-existing completed matches
referencing `pid`. -/
def sumDeltas (db : DB) (pid : ℕ) : ℤ :=
  ((db.matchRows.map Prod.snd).map (deltaFor pid)).sum

/-- Spec §3: every player's rating equals 1000 plus the sum of the applied
deltas of the currently-existing completed matches referencing it. -/
def invariantHolds (db : DB) : Prop :=
  ∀ e ∈ db.players, e.2.elo_rating = 1000 + sumDeltas db e.1

/-! ## Concrete stores used by the concrete theorems -/

/-- An abstract exponential for concrete evaluations; `tenPow1 0 = 1` is
the only fact about `10 ^ x` these evaluations use (they all pair equal
ratings). -/
def tenPow1 : ℚ → ℚ := fun _ => 1

/-- A completed 11-0 match between players 1 and 2 in session 1, with the
stored deltas `(+24, -24)` produced by the rating engine (`C1`). -/
def matchC : MatchR :=
  { session_id := 1, player1_id := 1, player2_id := 2,
    player1_score := some 11, player2_score := some 0, winner_id := some 1,
    player1_elo_before := some 1000, player2_elo_before := some 1000,
    player1_elo_change := some 24, player2_elo_change := some (-24),
    completed_at := some 1, notes := none }

/-- Store after that one completed match: ratings `1024` and `976`. -/
def dbC : DB :=
  { players := [(1, { elo_rating := 1024, active := true }),
                (2, { elo_rating := 976, active := true })],
    sessions := [1],
    matchRows := [(1, matchC)],
    nextSessionId := 2, nextMatchId := 2 }

/-- A fresh store: players 1 and 2 at 1000, one empty session. -/
def dbF : DB :=
  { players := [(1, { elo_rating := 1000, active := true }),
                (2, { elo_rating := 1000, active := true })],
    sessions := [1],
    matchRows := [],
    nextSessionId := 2, nextMatchId := 1 }


/-- The amount the C2 revert step subtracts from player `pid`'s rating when
`update_match` touches match `m`: the stored per-side deltas when `m` is
completed with both deltas present, else nothing. -/
def revertAmt (m : MatchR) (pid : ℕ) : ℤ :=
  if is_completed m && m.player1_elo_change.isSome && m.player2_elo_change.isSome then
    (if pid = m.player1_id then m.player1_elo_change.getD 0 else 0)
    + (if pid = m.player2_id then m.player2_elo_change.getD 0 else 0)
  else 0


/-- The total stored delta that `delete_session`'s revert loop subtracts
from player `pid` when deleting session `sid`: summed over the session's
completed matches (a missing per-side delta contributes nothing). -/
def sessionDelta (db : DB) (sid pid : ℕ) : ℤ :=
  (((db.matchRows.map Prod.snd).filter
      (fun m => m.session_id == sid && m.player1_score.isSome && m.player2_score.isSome)).map
    (fun m => (if pid = m.player1_id then m.player1_elo_change.getD 0 else 0)
      + (if pid = m.player2_id then m.player2_elo_change.getD 0 else 0))).sum

/-- Store with one completed match (`matchC`, deltas +24 and -24 applied) and
one unscored match in session 1. -/
def dbC4 : DB :=
  { players := [(1, { elo_rating := 1024, active := true }),
                (2, { elo_rating := 976, active := true })],
    sessions := [1],
    matchRows := [(1, matchC), (2, unscoredMatch 1 1 2)],
    nextSessionId := 2, nextMatchId := 3 }


/-! ## Leaderboard (routes/squash.py lines 332-376) -/

/-- The leaderboard's per-player query: completed matches (both scores
present) in which `pid` plays on either side. -/
def completedFor (db : DB) (pid : ℕ) : List MatchR :=
  (db.matchRows.map Prod.snd).filter
    (fun m => ((m.player1_id == pid) || (m.player2_id == pid))
      && m.player1_score.isSome && m.player2_score.isSome)

structure LBEntry where
  id : ℕ
  elo_rating : ℤ
  matches_played : ℕ
  wins : ℕ
  losses : ℕ
  total_points : ℕ
  deriving DecidableEq, Repr

/-- Embedding of `get_leaderboard`: for each active player with at least
one completed match, the played/wins/losses figures and the points tally
`wins * 3 + losses * 1` where `losses = played - wins`.  The
presentation-only rounded fields (`win_rate`, `points_per_match`) and the
final sort by `(elo_rating, points_per_match)` descending are not
modelled; the theorems about this view are membership-based and
insensitive to order. -/
def get_leaderboard (db : DB) : List LBEntry :=
  (db.players.filter (fun e => e.2.active)).filterMap (fun e =>
    let ms := completedFor db e.1
    if ms.isEmpty then none
    else
      let total := ms.length
      let wins := (ms.filter (fun m => m.winner_id == some e.1)).length
      let losses := total - wins
      some { id := e.1, elo_rating := e.2.elo_rating, matches_played := total,
             wins := wins, losses := losses, total_points := wins * 3 + losses * 1 })

/-- Matches of `pid`'s completed list won by `pid`. -/
def winsOf (db : DB) (pid : ℕ) : ℕ :=
  (completedFor db pid).countP (fun m => m.winner_id == some pid)

/-- Ties (no winner) among `pid`'s completed matches. -/
def tiesOf (db : DB) (pid : ℕ) : ℕ :=
  (completedFor db pid).countP (fun m => m.winner_id == none)

/-- Matches of `pid`'s completed list won by somebody else. -/
def lossesOf (db : DB) (pid : ℕ) : ℕ :=
  (completedFor db pid).countP (fun m => m.winner_id != none && m.winner_id != some pid)

/-- Store with one completed tied match (5-5, no winner, zero deltas)
between active players 1 and 2. -/
def dbTie : DB :=
  { players := [(1, { elo_rating := 1000, active := true }),
                (2, { elo_rating := 1000, active := true })],
    sessions := [1],
    matchRows := [(1,
      { session_id := 1, player1_id := 1, player2_id := 2,
        player1_score := some 5, player2_score := some 5, winner_id := none,
        player1_elo_before := some 1000, player2_elo_before := some 1000,
        player1_elo_change := some 0, player2_elo_change := some 0,
        completed_at := some 1, notes := none })],
    nextSessionId := 2, nextMatchId := 2 }


/-- The leaderboard row `get_leaderboard` computes for an active player
`(pid, p)` whose completed-match list is non-empty. -/
def mkLBEntry (db : DB) (pid : ℕ) (p : PlayerR) : LBEntry :=
  { id := pid, elo_rating := p.elo_rating,
    matches_played := (completedFor db pid).length,
    wins := ((completedFor db pid).filter (fun m => m.winner_id == some pid)).length,
    losses := (completedFor db pid).length
      - ((completedFor db pid).filter (fun m => m.winner_id == some pid)).length,
    total_points := ((completedFor db pid).filter (fun m => m.winner_id == some pid)).length * 3
      + ((completedFor db pid).length
        - ((completedFor db pid).filter (fun m => m.winner_id == some pid)).length) * 1 }

/-- The leaderboard row the tie store produces for player 1. -/
def tieEntry : LBEntry :=
  { id := 1, elo_rating := 1000, matches_played := 1, wins := 0, losses := 1,
    total_points := 1 }

/-! ## Highlights (routes/squash.py lines 380-463) -/

/-- Python truthiness of an optional integer: the guard
`if match.player1_elo_change and match.player2_elo_change` treats both
`None` and `0` as falsy. -/
def truthyInt : Option ℤ → Bool
  | none => false
  | some d => d != 0

/-- `ORDER BY completed_at DESC LIMIT 10` over the completed matches (the
`recent_matches` query of `get_highlights`).  Ties in `completed_at` are
left in store order (any stable realization of the SQL ordering). -/
def recent_matches (db : DB) : List MatchR :=
  (List.insertionSort (fun a b => b.completed_at.getD 0 ≤ a.completed_at.getD 0)
    ((db.matchRows.map Prod.snd).filter
      (fun m => m.player1_score.isSome && m.player2_score.isSome
        && m.completed_at.isSome))).take 10

/-- A biggest-gain/loss candidate: match position in the recent list,
side (`false` = player 1), and that side's stored delta. -/
abbrev HLCand : Type := ℕ × Bool × ℤ

/-- `if best is None or delta > best: best := (match, side, delta)` — the
strict comparison of the gain loop. -/
def stepGain (best : Option HLCand) (c : HLCand) : Option HLCand :=
  match best with
  | none => some c
  | some b => if c.2.2 > b.2.2 then some c else some b

/-- The loss loop's strict comparison (`<`). -/
def stepLoss (best : Option HLCand) (c : HLCand) : Option HLCand :=
  match best with
  | none => some c
  | some b => if c.2.2 < b.2.2 then some c else some b

/-- The gain half of `get_highlights`' loop: each match whose two deltas
are truthy offers its player-1 candidate and then its player-2 candidate
to the running best. -/
def hlGainAux : Option HLCand → List (ℕ × MatchR) → Option HLCand
  | best, [] => best
  | best, (i, m) :: t =>
    if truthyInt m.player1_elo_change && truthyInt m.player2_elo_change then
      hlGainAux (stepGain (stepGain best (i, false, m.player1_elo_change.getD 0))
        (i, true, m.player2_elo_change.getD 0)) t
    else hlGainAux best t

/-- The loss half of the same loop. -/
def hlLossAux : Option HLCand → List (ℕ × MatchR) → Option HLCand
  | best, [] => best
  | best, (i, m) :: t =>
    if truthyInt m.player1_elo_change && truthyInt m.player2_elo_change then
      hlLossAux (stepLoss (stepLoss best (i, false, m.player1_elo_change.getD 0))
        (i, true, m.player2_elo_change.getD 0)) t
    else hlLossAux best t

/-- `get_highlights`' `biggest_elo_gain`. -/
def biggest_gain (db : DB) : Option HLCand :=
  hlGainAux none (recent_matches db).enum

/-- `get_highlights`' `biggest_elo_loss`. -/
def biggest_loss (db : DB) : Option HLCand :=
  hlLossAux none (recent_matches db).enum

/-- The candidates the loop offers, flattened in iteration order. -/
def hlCands : List (ℕ × MatchR) → List HLCand
  | [] => []
  | (i, m) :: t =>
    if truthyInt m.player1_elo_change && truthyInt m.player2_elo_change then
      (i, false, m.player1_elo_change.getD 0)
        :: (i, true, m.player2_elo_change.getD 0) :: hlCands t
    else hlCands t

/-- All per-player deltas of a match list, in order (the claim's
"per-player deltas of the 10 most recently completed matches"). -/
def allDeltas (ms : List MatchR) : List ℤ :=
  ms.foldr (fun m acc =>
    m.player1_elo_change.getD 0 :: m.player2_elo_change.getD 0 :: acc) []

/-- Store with three completed matches for the highlights witness:
deltas (+24, -24) most recent, (+10, -10) next, (0, 0) oldest. -/
def dbH : DB :=
  { players := [(1, { elo_rating := 1034, active := true }),
                (2, { elo_rating := 966, active := true })],
    sessions := [1],
    matchRows := [(1,
      { session_id := 1, player1_id := 1, player2_id := 2,
        player1_score := some 5, player2_score := some 5, winner_id := none,
        player1_elo_before := some 1000, player2_elo_before := some 1000,
        player1_elo_change := some 0, player2_elo_change := some 0,
        completed_at := some 1, notes := none }),
      (2,
      { session_id := 1, player1_id := 1, player2_id := 2,
        player1_score := some 11, player2_score := some 5, winner_id := some 1,
        player1_elo_before := some 1000, player2_elo_before := some 1000,
        player1_elo_change := some 10, player2_elo_change := some (-10),
        completed_at := some 2, notes := none }),
      (3,
      { session_id := 1, player1_id := 1, player2_id := 2,
        player1_score := some 11, player2_score := some 0, winner_id := some 1,
        player1_elo_before := some 1010, player2_elo_before := some 990,
        player1_elo_change := some 24, player2_elo_change := some (-24),
        completed_at := some 3, notes := none })],
    nextSessionId := 2, nextMatchId := 4 }


/-! # Theorems -/

/-! Basic facts about `truncQ`. -/

theorem truncQ_eq_floor_or_ceil (q : ℚ) :
    truncQ q = if 0 ≤ q then ⌊q⌋ else ⌈q⌉ := by
  unfold truncQ
  rcases le_or_lt 0 q with h | h
  · rw [if_pos h]
    have hnum : 0 ≤ q.num := Rat.num_nonneg.mpr h
    rw [Int.tdiv_eq_ediv hnum (by positivity), ← Rat.floor_intCast_div_natCast]
    simp [Rat.num_div_den]
  · rw [if_neg (not_le.mpr h)]
    have hnum : q.num ≤ 0 := le_of_lt (Rat.num_neg.mpr h)
    have hden : (0 : ℤ) < (q.den : ℤ) := by positivity
    have h1 : q.num.tdiv (q.den : ℤ) = -((-q.num).tdiv (q.den : ℤ)) := by
      rw [Int.neg_tdiv, neg_neg]
    rw [h1, Int.tdiv_eq_ediv (by omega) (by positivity)]
    have h2 : (-q).num = -q.num := Rat.neg_num q
    have h3 : (-q).den = q.den := Rat.neg_den q
    have hcf : ⌈q⌉ = -⌊-q⌋ := by
      rw [Int.floor_neg, neg_neg]
    have h4 : ⌊-q⌋ = (-q.num) / (q.den : ℤ) := by
      rw [← h2, ← h3, ← Rat.floor_intCast_div_natCast, Rat.num_div_den]
    rw [hcf, h4]

theorem truncQ_neg (q : ℚ) : truncQ (-q) = -truncQ q := by
  unfold truncQ
  rw [Rat.neg_num, Rat.neg_den, Int.neg_tdiv]

theorem truncQ_zero : truncQ 0 = 0 := rfl

/-- Truncation toward zero does not increase absolute value: if `|q| ≤ c`
then `|truncQ q| ≤ c`. -/
theorem abs_truncQ_le {q : ℚ} {c : ℤ} (h : |q| ≤ (c : ℚ)) : |truncQ q| ≤ c := by
  rw [truncQ_eq_floor_or_ceil]
  rcases le_or_lt 0 q with h0 | h0
  · rw [if_pos h0, abs_of_nonneg (Int.floor_nonneg.mpr h0)]
    have hq : q ≤ (c : ℚ) := (abs_le.mp h).2
    exact_mod_cast Int.floor_le_floor hq |>.trans_eq (Int.floor_intCast c)
  · rw [if_neg (not_le.mpr h0)]
    have hceil : ⌈q⌉ ≤ 0 := Int.ceil_le.mpr (by exact_mod_cast le_of_lt h0)
    rw [abs_of_nonpos hceil]
    have hq : -(c : ℚ) ≤ q := (abs_le.mp h).1
    have : (-c : ℤ) ≤ ⌈q⌉ := by
      calc (-c : ℤ) = ⌈((-c : ℤ) : ℚ)⌉ := (Int.ceil_intCast _).symm
        _ ≤ ⌈q⌉ := Int.ceil_le_ceil (by push_cast; linarith)
    omega

/-- With equal ratings the exponent is `0`, so any `tenPow` with
`tenPow 0 = 1` behaves like the constant-one function. -/
theorem calculate_elo_changes_equal_ratings (tenPow : ℚ → ℚ) (h0 : tenPow 0 = 1)
    (r s1 s2 : ℤ) :
    calculate_elo_changes tenPow r r s1 s2 = calculate_elo_changes (fun _ => 1) r r s1 s2 := by
  simp only [calculate_elo_changes, sub_self, zero_div, h0]

/-- The two deltas are exact negations of each other: the pre-truncation
values are negatives of one another and truncation toward zero is odd.
(The spec's §4.1 remark that truncation can break the zero sum by ±1 is an
artifact of binary floating point, which the exact-arithmetic model
idealizes away.) -/
theorem calculate_elo_changes_snd_eq_neg_fst (tenPow : ℚ → ℚ) (elo1 elo2 s1 s2 : ℤ) :
    (calculate_elo_changes tenPow elo1 elo2 s1 s2).2
      = -(calculate_elo_changes tenPow elo1 elo2 s1 s2).1 := by
  simp only [calculate_elo_changes]
  rw [← truncQ_neg]
  congr 1
  set E : ℚ := 1 / (1 + tenPow (((elo2 : ℚ) - (elo1 : ℚ)) / 400)) with hE
  set M : ℚ := if (max s1 s2 : ℤ) = 0 then (1:ℚ)
    else 1/2 + ((|s1 - s2| : ℤ) : ℚ) / ((max s1 s2 : ℤ) : ℚ) with hM
  rcases eq_or_ne (s1 + s2) 0 with htot | htot
  · simp only [if_pos htot]
    ring
  · simp only [if_neg htot]
    have hT : ((s1 + s2 : ℤ) : ℚ) ≠ 0 := Int.cast_ne_zero.mpr htot
    have hsum : (s1 : ℚ) / ((s1 + s2 : ℤ) : ℚ) + (s2 : ℚ) / ((s1 + s2 : ℤ) : ℚ) = 1 := by
      rw [div_add_div_same, div_eq_one_iff_eq hT]
      push_cast
      ring
    linear_combination (32 * M) * hsum

/-- C1: `calculate_elo_changes` (the spec's `computeDeltas`) agrees with the
reference definition of §4.1 for all positive integer ratings and
non-negative integer scores; in particular
`computeDeltas(1000,1000,11,0) = (24,-24)` and
`computeDeltas(r,r,0,0) = (0,0)` for every rating `r`. -/
theorem C1_calculate_elo_changes_matches_spec (tenPow : ℚ → ℚ) (h0 : tenPow 0 = 1) :
    (∀ elo1 elo2 score1 score2 : ℤ, 0 < elo1 → 0 < elo2 → 0 ≤ score1 → 0 ≤ score2 →
        calculate_elo_changes tenPow elo1 elo2 score1 score2
          = computeDeltas tenPow elo1 elo2 score1 score2)
    ∧ calculate_elo_changes tenPow 1000 1000 11 0 = (24, -24)
    ∧ (∀ r : ℤ, calculate_elo_changes tenPow r r 0 0 = (0, 0)) := by
  refine ⟨?_, ?_, ?_⟩
  · intro elo1 elo2 s1 s2 _ _ hs1 hs2
    have hc1 : (s1 + s2 = 0) ↔ (s1 = 0 ∧ s2 = 0) := by omega
    have hc2 : ((max s1 s2 : ℤ) = 0) ↔ ¬(0 < max s1 s2) := by omega
    simp only [calculate_elo_changes, computeDeltas, hc1, hc2, ite_not]
    split_ifs
    all_goals
      first
        | omega
        | rfl
        | (simp only [Prod.mk.injEq]; constructor <;> (congr 1; push_cast; ring))
  · rw [calculate_elo_changes_equal_ratings tenPow h0]
    have hA : calculate_elo_changes (fun _ => (1:ℚ)) 1000 1000 11 0
        = (truncQ 24, truncQ (-24)) := by
      simp only [calculate_elo_changes]
      norm_num [max_def]
    rw [hA]
    rfl
  · intro r
    rw [calculate_elo_changes_equal_ratings tenPow h0]
    simp only [calculate_elo_changes]
    norm_num [truncQ_zero]

/-- Witness for C1 at concrete inputs (`tenPow := fun _ => 1` satisfies
`tenPow 0 = 1`). -/
theorem C1_witness :
    calculate_elo_changes (fun _ => 1) 1000 900 11 5
        = computeDeltas (fun _ => 1) 1000 900 11 5
    ∧ calculate_elo_changes (fun _ => 1) 1000 1000 11 0 = (24, -24)
    ∧ calculate_elo_changes (fun _ => 1) 1234 1234 0 0 = (0, 0) := by
  obtain ⟨h1, h2, h3⟩ := C1_calculate_elo_changes_matches_spec (fun _ => 1) rfl
  exact ⟨h1 1000 900 11 5 (by decide) (by decide) (by decide) (by decide), h2, h3 1234⟩

/-- `|32 * m * d| ≤ 48` when `0 ≤ m ≤ 3/2` and `|d| ≤ 1`. -/
theorem abs_change_le {m d : ℚ} (hm0 : 0 ≤ m) (hm : m ≤ 3/2) (hd : |d| ≤ 1) :
    |32 * m * d| ≤ 48 := by
  rw [abs_mul, abs_mul, abs_of_nonneg (by norm_num : (0:ℚ) ≤ 32), abs_of_nonneg hm0]
  calc 32 * m * |d| ≤ 32 * (3/2) * 1 := by
        have habs : 0 ≤ |d| := abs_nonneg d
        nlinarith
    _ = 48 := by norm_num


/-- C9: for every pair of integer ratings and every pair of non-negative
integer scores, each delta returned by `calculate_elo_changes` has absolute
value at most `48` (= K=32 times the maximum margin multiplier 1.5 times
the maximum possible `|actual - expected|` of 1). -/
theorem C9_delta_abs_le_48 (tenPow : ℚ → ℚ) (elo1 elo2 s1 s2 : ℤ)
    (htp : 0 ≤ tenPow (((elo2 : ℚ) - (elo1 : ℚ)) / 400))
    (hs1 : 0 ≤ s1) (hs2 : 0 ≤ s2) :
    |(calculate_elo_changes tenPow elo1 elo2 s1 s2).1| ≤ 48
    ∧ |(calculate_elo_changes tenPow elo1 elo2 s1 s2).2| ≤ 48 := by
  have h1t : (0:ℚ) < 1 + tenPow (((elo2 : ℚ) - (elo1 : ℚ)) / 400) := by linarith
  have hexp0 : 0 ≤ 1 / (1 + tenPow (((elo2 : ℚ) - (elo1 : ℚ)) / 400)) :=
    le_of_lt (div_pos one_pos h1t)
  have hexp1 : 1 / (1 + tenPow (((elo2 : ℚ) - (elo1 : ℚ)) / 400)) ≤ 1 := by
    rw [div_le_one h1t]; linarith
  have hcast : ((48 : ℤ) : ℚ) = 48 := by norm_num
  -- bounds for the margin multiplier
  have hmult : 0 ≤ (if (max s1 s2 : ℤ) = 0 then (1:ℚ)
        else 1/2 + ((|s1 - s2| : ℤ) : ℚ) / ((max s1 s2 : ℤ) : ℚ))
      ∧ (if (max s1 s2 : ℤ) = 0 then (1:ℚ)
        else 1/2 + ((|s1 - s2| : ℤ) : ℚ) / ((max s1 s2 : ℤ) : ℚ)) ≤ 3/2 := by
    split_ifs with h
    · norm_num
    · have hmaxpos : (0:ℤ) < max s1 s2 := by omega
      have hmaxQ : (0:ℚ) < ((max s1 s2 : ℤ) : ℚ) := by exact_mod_cast hmaxpos
      have hpd : (|s1 - s2| : ℤ) ≤ max s1 s2 := by
        rcases abs_cases (s1 - s2) with ⟨habs, _⟩ | ⟨habs, _⟩ <;> rw [habs] <;> omega
      have hratio1 : ((|s1 - s2| : ℤ) : ℚ) / ((max s1 s2 : ℤ) : ℚ) ≤ 1 := by
        rw [div_le_one hmaxQ]; exact_mod_cast hpd
      have hratio0 : 0 ≤ ((|s1 - s2| : ℤ) : ℚ) / ((max s1 s2 : ℤ) : ℚ) :=
        div_nonneg (by positivity) (le_of_lt hmaxQ)
      constructor <;> linarith
  -- bounds for actual performance of either player
  have hact : ∀ s : ℤ, 0 ≤ s → s ≤ s1 + s2 →
      0 ≤ (if (s1 + s2 : ℤ) = 0 then (1:ℚ) / 2 else (s : ℚ) / ((s1 + s2 : ℤ) : ℚ))
      ∧ (if (s1 + s2 : ℤ) = 0 then (1:ℚ) / 2 else (s : ℚ) / ((s1 + s2 : ℤ) : ℚ)) ≤ 1 := by
    intro s hs0 hsle
    split_ifs with h
    · norm_num
    · have hTpos : (0:ℤ) < s1 + s2 := by omega
      have hTQ : (0:ℚ) < ((s1 + s2 : ℤ) : ℚ) := by exact_mod_cast hTpos
      refine ⟨div_nonneg (by exact_mod_cast hs0) (le_of_lt hTQ), ?_⟩
      rw [div_le_one hTQ]; exact_mod_cast hsle
  have ha1 := hact s1 hs1 (by omega)
  have ha2 := hact s2 hs2 (by omega)
  simp only [calculate_elo_changes]
  constructor
  · apply abs_truncQ_le
    rw [hcast]
    exact abs_change_le hmult.1 hmult.2 (abs_le.mpr ⟨by linarith [ha1.1], by linarith [ha1.2]⟩)
  · apply abs_truncQ_le
    rw [hcast]
    exact abs_change_le hmult.1 hmult.2 (abs_le.mpr ⟨by linarith [ha2.1], by linarith [ha2.2]⟩)

/-- Witness for C9 at a concrete input. -/
theorem C9_witness :
    |(calculate_elo_changes (fun _ => 1) 1000 1000 11 0).1| ≤ 48
    ∧ |(calculate_elo_changes (fun _ => 1) 1000 1000 11 0).2| ≤ 48 :=
  C9_delta_abs_le_48 (fun _ => 1) 1000 1000 11 0 (by norm_num) (by decide) (by decide)


/-! ## Association-list lemmas -/

theorem lookup_setRow {α : Type} (ps : List (ℕ × α)) (k k' : ℕ) (v : α) :
    (setRow ps k v).lookup k' = (ps.lookup k').map (fun w => if k' = k then v else w) := by
  induction ps with
  | nil => rfl
  | cons e t ih =>
    obtain ⟨ek, ev⟩ := e
    show List.lookup k' ((if ek = k then (ek, v) else (ek, ev)) :: setRow t k v)
        = (List.lookup k' ((ek, ev) :: t)).map (fun w => if k' = k then v else w)
    by_cases h2 : k' = ek
    · subst h2
      by_cases h1 : k' = k
      · rw [if_pos h1]
        simp [List.lookup, h1]
      · rw [if_neg h1]
        simp [List.lookup, h1]
    · have hbeq : (k' == ek) = false := beq_eq_false_iff_ne.mpr h2
      by_cases h1 : ek = k
      · rw [if_pos h1]
        simp only [List.lookup, hbeq]
        exact ih
      · rw [if_neg h1]
        simp only [List.lookup, hbeq]
        exact ih

theorem lookup_applyDelta (ps : List (ℕ × PlayerR)) (k k' : ℕ) (d : ℤ) :
    (applyDelta ps k d).lookup k'
      = (ps.lookup k').map
          (fun p => if k' = k then { p with elo_rating := p.elo_rating + d } else p) := by
  induction ps with
  | nil => rfl
  | cons e t ih =>
    obtain ⟨ek, ev⟩ := e
    show List.lookup k'
          ((if ek = k then (ek, { ev with elo_rating := ev.elo_rating + d }) else (ek, ev))
            :: applyDelta t k d)
        = (List.lookup k' ((ek, ev) :: t)).map
            (fun p => if k' = k then { p with elo_rating := p.elo_rating + d } else p)
    by_cases h2 : k' = ek
    · subst h2
      by_cases h1 : k' = k
      · rw [if_pos h1]
        simp [List.lookup, h1]
      · rw [if_neg h1]
        simp [List.lookup, h1]
    · have hbeq : (k' == ek) = false := beq_eq_false_iff_ne.mpr h2
      by_cases h1 : ek = k
      · rw [if_pos h1]
        simp only [List.lookup, hbeq]
        exact ih
      · rw [if_neg h1]
        simp only [List.lookup, hbeq]
        exact ih


/-- C2 (code bug): a notes-only `PUT /matches/1` on a completed match
subtracts the stored deltas from the live ratings and commits without
recomputing or re-applying any delta, so the accounting invariant
(rating = 1000 + sum of applied deltas of existing completed matches)
holds before the call, the call reports success, and the invariant is
broken afterwards. -/
theorem C2_notes_only_put_breaks_invariant :
    invariantHolds dbC
    ∧ (update_match tenPow1 dbC 1
        { player1_score := none, player2_score := none, notes := some (some "x") } 5).1
        = ApiResult.ok
    ∧ ¬ invariantHolds (update_match tenPow1 dbC 1
        { player1_score := none, player2_score := none, notes := some (some "x") } 5).2 := by
  refine ⟨?_, by decide, ?_⟩
  · simp only [invariantHolds]
    decide
  · simp only [invariantHolds]
    decide

/-- C3 counterexample: `PUT /matches/1` supplying only `player1_score` is
*not* rejected as a validation error (the handler answers `ok`), and the
ratings do change (player 1 drops from 1024 to 1000 because the completed
match's deltas are reverted and never re-applied), contradicting the claim
that such a request is rejected with no state change. -/
theorem C3_counterexample_one_score_put_not_rejected :
    (update_match tenPow1 dbC 1
        { player1_score := some (JVal.jint 7), player2_score := none, notes := none } 5).1
      = ApiResult.ok
    ∧ ((update_match tenPow1 dbC 1
        { player1_score := some (JVal.jint 7), player2_score := none, notes := none } 5).2.players.lookup 1).map PlayerR.elo_rating
      = some 1000
    ∧ (dbC.players.lookup 1).map PlayerR.elo_rating = some 1024 := by
  refine ⟨by decide, by decide, by decide⟩

/-- Unfolding lemma: `POST /matches` with both scores present and valid
references creates the match, runs `update_scores`, and commits — with no
validation of the score values whatsoever. -/
theorem create_match_scored (tenPow : ℚ → ℚ) (db : DB) (cdata : CreateData) (now : ℕ)
    (sid pid1 pid2 : ℕ) (s1 s2 : ℤ) (p1 p2 : PlayerR)
    (hcs : cdata.session_id = some sid) (hs0 : sid ≠ 0)
    (hc1 : cdata.player1_id = some pid1) (h10 : pid1 ≠ 0)
    (hc2 : cdata.player2_id = some pid2) (h20 : pid2 ≠ 0)
    (hne : pid1 ≠ pid2)
    (hsc1 : cdata.player1_score = some s1) (hsc2 : cdata.player2_score = some s2)
    (hl1 : db.players.lookup pid1 = some p1) (hl2 : db.players.lookup pid2 = some p2)
    (hsess : sid ∈ db.sessions) :
    create_match tenPow db cdata now
      = (ApiResult.ok,
         { db with
            players := setRow (setRow db.players pid1
                { p1 with elo_rating :=
                    p1.elo_rating
                      + (calculate_elo_changes tenPow p1.elo_rating p2.elo_rating s1 s2).1 })
              pid2
              { p2 with elo_rating :=
                  p2.elo_rating
                    + (calculate_elo_changes tenPow p1.elo_rating p2.elo_rating s1 s2).2 },
            matchRows := db.matchRows ++ [(db.nextMatchId,
              { session_id := sid, player1_id := pid1, player2_id := pid2,
                player1_score := some s1, player2_score := some s2,
                winner_id := if s1 > s2 then some pid1
                  else if s2 > s1 then some pid2 else none,
                player1_elo_before := some p1.elo_rating,
                player2_elo_before := some p2.elo_rating,
                player1_elo_change :=
                  some (calculate_elo_changes tenPow p1.elo_rating p2.elo_rating s1 s2).1,
                player2_elo_change :=
                  some (calculate_elo_changes tenPow p1.elo_rating p2.elo_rating s1 s2).2,
                completed_at := some now,
                notes := if strFalsy cdata.notes then none else cdata.notes.map String.trim })],
            nextMatchId := db.nextMatchId + 1 }) := by
  have ht : (truthyNat (some sid) && truthyNat (some pid1) && truthyNat (some pid2)) = true := by
    simp [truthyNat, hs0, h10, h20]
  simp only [create_match, ht, Bool.not_true, Bool.false_eq_true, if_false,
    hcs, hc1, hc2, hsc1, hsc2, Option.getD_some, if_neg hne, hl1, hl2, if_pos hsess,
    update_scores]

/-- C5 counterexample: `POST /matches` with `player1_score = -5`,
`player2_score = 3` is *not* rejected: it answers `ok` and applies the
deltas `(+202, -202)` computed by the engine from the negative score,
moving the ratings to 1202 and 798 — the claim requires a validation
error and no delta applied. -/
theorem C5_counterexample_post_negative_score_not_rejected :
    (create_match tenPow1 dbF
      { session_id := some 1, player1_id := some 1, player2_id := some 2,
        player1_score := some (-5), player2_score := some 3, notes := none } 3).1
      = ApiResult.ok
    ∧ ((create_match tenPow1 dbF
      { session_id := some 1, player1_id := some 1, player2_id := some 2,
        player1_score := some (-5), player2_score := some 3, notes := none } 3).2.players.lookup 1).map
        PlayerR.elo_rating = some 1202
    ∧ ((create_match tenPow1 dbF
      { session_id := some 1, player1_id := some 1, player2_id := some 2,
        player1_score := some (-5), player2_score := some 3, notes := none } 3).2.players.lookup 2).map
        PlayerR.elo_rating = some 798 := by
  have htr1 : truncQ (608/3 : ℚ) = 202 := by
    rw [truncQ_eq_floor_or_ceil, if_pos (by norm_num)]
    rw [Int.floor_eq_iff]
    constructor <;> norm_num
  have htr2 : truncQ (-(608/3) : ℚ) = -202 := by
    rw [truncQ_neg, htr1]
  have hengine : calculate_elo_changes tenPow1 1000 1000 (-5) 3 = (202, -202) := by
    have hA : calculate_elo_changes tenPow1 1000 1000 (-5) 3
        = (truncQ (608/3), truncQ (-(608/3))) := by
      simp only [calculate_elo_changes, tenPow1]
      norm_num [max_def]
    rw [hA, htr1, htr2]
  have h := create_match_scored tenPow1 dbF
      { session_id := some 1, player1_id := some 1, player2_id := some 2,
        player1_score := some (-5), player2_score := some 3, notes := none } 3
      1 1 2 (-5) 3 { elo_rating := 1000, active := true } { elo_rating := 1000, active := true }
      rfl (by decide) rfl (by decide) rfl (by decide) (by decide) rfl rfl rfl rfl (by decide)
  rw [h]
  refine ⟨rfl, ?_, ?_⟩ <;>
    simp [dbF, lookup_setRow, hengine, List.lookup]

/-- C3 (amended): a match-scoring request supplying exactly one of the two
scores is *not* rejected and does not trigger scoring.  `PUT /matches/{id}`
ignores the score fields — stored scores and deltas are unchanged and no
new delta is computed — but still performs the unconditional
completed-match revert (the C2 defect), so each player's rating drops by
exactly `revertAmt` (zero unless the match was completed with stored
deltas).  `POST /matches` creates the match storing the single supplied
score, with no winner, snapshots or deltas, and no rating change. -/
theorem C3_one_score_request_not_scored (tenPow : ℚ → ℚ) :
    (∀ (db : DB) (mid now : ℕ) (data : PutData) (m : MatchR) (p1 p2 : PlayerR),
      data.player1_score.isSome ≠ data.player2_score.isSome →
      db.matchRows.lookup mid = some m →
      db.players.lookup m.player1_id = some p1 →
      db.players.lookup m.player2_id = some p2 →
      m.player1_id ≠ m.player2_id →
      (update_match tenPow db mid data now).1 = ApiResult.ok
      ∧ ((update_match tenPow db mid data now).2.matchRows.lookup mid).map MatchR.player1_score
          = some m.player1_score
      ∧ ((update_match tenPow db mid data now).2.matchRows.lookup mid).map MatchR.player2_score
          = some m.player2_score
      ∧ ((update_match tenPow db mid data now).2.matchRows.lookup mid).map
          MatchR.player1_elo_change = some m.player1_elo_change
      ∧ ((update_match tenPow db mid data now).2.matchRows.lookup mid).map
          MatchR.player2_elo_change = some m.player2_elo_change
      ∧ ∀ pid, ((update_match tenPow db mid data now).2.players.lookup pid).map
            PlayerR.elo_rating
          = (db.players.lookup pid).map (fun p => p.elo_rating - revertAmt m pid))
    ∧ (∀ (db : DB) (cdata : CreateData) (now : ℕ) (sid pid1 pid2 : ℕ) (q1 q2 : PlayerR),
      cdata.player1_score.isSome ≠ cdata.player2_score.isSome →
      cdata.session_id = some sid → sid ≠ 0 →
      cdata.player1_id = some pid1 → pid1 ≠ 0 →
      cdata.player2_id = some pid2 → pid2 ≠ 0 → pid1 ≠ pid2 →
      db.players.lookup pid1 = some q1 → db.players.lookup pid2 = some q2 →
      sid ∈ db.sessions →
      create_match tenPow db cdata now
        = (ApiResult.ok,
           { db with matchRows := db.matchRows ++ [(db.nextMatchId,
               { session_id := sid, player1_id := pid1, player2_id := pid2,
                 player1_score := cdata.player1_score,
                 player2_score := cdata.player2_score,
                 winner_id := none, player1_elo_before := none,
                 player2_elo_before := none, player1_elo_change := none,
                 player2_elo_change := none, completed_at := none,
                 notes := if strFalsy cdata.notes then none
                   else cdata.notes.map String.trim })],
                     nextMatchId := db.nextMatchId + 1 })) := by
  constructor
  · intro db mid now data m p1 p2 hone hm hp1 hp2 hne
    have hred : update_match tenPow db mid data now
        = (ApiResult.ok,
           { db with
              players := setRow (setRow db.players m.player1_id
                  (if (is_completed m && m.player1_elo_change.isSome
                      && m.player2_elo_change.isSome) = true
                   then { p1 with
                           elo_rating := p1.elo_rating - m.player1_elo_change.getD 0 }
                   else p1))
                m.player2_id
                (if (is_completed m && m.player1_elo_change.isSome
                    && m.player2_elo_change.isSome) = true
                 then { p2 with
                         elo_rating := p2.elo_rating - m.player2_elo_change.getD 0 }
                 else p2),
              matchRows := setRow db.matchRows mid (applyNotes m data) }) := by
      rcases hd1 : data.player1_score with _ | v1 <;>
        rcases hd2 : data.player2_score with _ | v2
      · rw [hd1, hd2] at hone
        simp at hone
      · simp only [update_match, hm, hp1, hp2, hd1, hd2]
      · simp only [update_match, hm, hp1, hp2, hd1, hd2]
      · rw [hd1, hd2] at hone
        simp at hone
    rw [hred]
    have hnotes : ∀ sel : MatchR → Option ℤ,
        sel (applyNotes m data) = sel m →
        ((setRow db.matchRows mid (applyNotes m data)).lookup mid).map sel = some (sel m) := by
      intro sel hsel
      rw [lookup_setRow, hm]
      simp [hsel]
    refine ⟨rfl, ?_, ?_, ?_, ?_, ?_⟩
    · exact hnotes _ (by rcases hn : data.notes with _ | nv <;> simp [applyNotes, hn])
    · exact hnotes _ (by rcases hn : data.notes with _ | nv <;> simp [applyNotes, hn])
    · exact hnotes _ (by rcases hn : data.notes with _ | nv <;> simp [applyNotes, hn])
    · exact hnotes _ (by rcases hn : data.notes with _ | nv <;> simp [applyNotes, hn])
    · intro pid
      rw [lookup_setRow, lookup_setRow]
      rcases hl : db.players.lookup pid with _ | p
      · rfl
      · simp only [Option.map_some']
        by_cases h2 : pid = m.player2_id
        · subst h2
          rw [hp2] at hl
          obtain rfl := Option.some.inj hl
          have hne1 : ¬ (m.player2_id = m.player1_id) := fun hh => hne hh.symm
          by_cases hrev : (is_completed m && m.player1_elo_change.isSome
              && m.player2_elo_change.isSome) = true
          · simp [revertAmt, hrev, hne1]
          · simp [revertAmt, hrev]
        · by_cases h1 : pid = m.player1_id
          · subst h1
            rw [hp1] at hl
            obtain rfl := Option.some.inj hl
            by_cases hrev : (is_completed m && m.player1_elo_change.isSome
                && m.player2_elo_change.isSome) = true
            · simp [revertAmt, hrev, h2]
            · simp [revertAmt, hrev, h2]
          · by_cases hrev : (is_completed m && m.player1_elo_change.isSome
                && m.player2_elo_change.isSome) = true
            · simp [revertAmt, hrev, h1, h2]
            · simp [revertAmt, hrev, h1, h2]
  · intro db cdata now sid pid1 pid2 q1 q2 hone hcs hs0 hc1 h10 hc2 h20 hne hl1 hl2 hsess
    have ht : (truthyNat (some sid) && truthyNat (some pid1)
        && truthyNat (some pid2)) = true := by
      simp [truthyNat, hs0, h10, h20]
    rcases hd1 : cdata.player1_score with _ | s1 <;>
      rcases hd2 : cdata.player2_score with _ | s2
    · rw [hd1, hd2] at hone
      simp at hone
    · simp only [create_match, ht, Bool.not_true, Bool.false_eq_true, if_false,
        hcs, hc1, hc2, hd1, hd2, Option.getD_some, if_neg hne, hl1, hl2,
        if_pos hsess]
    · simp only [create_match, ht, Bool.not_true, Bool.false_eq_true, if_false,
        hcs, hc1, hc2, hd1, hd2, Option.getD_some, if_neg hne, hl1, hl2,
        if_pos hsess]
    · rw [hd1, hd2] at hone
      simp at hone

/-- Witness for C3's amended theorem at `dbC` (a one-score `PUT` on the
completed match: success, scores and deltas untouched, player 1's rating
reduced by the stored `+24`) and `dbF` (a one-score `POST`). -/
theorem C3_one_score_witness :
    (update_match tenPow1 dbC 1
        { player1_score := some (JVal.jint 7), player2_score := none, notes := none } 5).1
      = ApiResult.ok
    ∧ ((update_match tenPow1 dbC 1
        { player1_score := some (JVal.jint 7), player2_score := none, notes := none } 5).2.players.lookup 1).map
        PlayerR.elo_rating
      = ((dbC.players.lookup 1).map (fun p => p.elo_rating - revertAmt matchC 1))
    ∧ create_match tenPow1 dbF
        { session_id := some 1, player1_id := some 1, player2_id := some 2,
          player1_score := some 7, player2_score := none, notes := none } 9
      = (ApiResult.ok,
         { dbF with matchRows := dbF.matchRows ++ [(dbF.nextMatchId,
             { session_id := 1, player1_id := 1, player2_id := 2,
               player1_score := some 7, player2_score := none,
               winner_id := none, player1_elo_before := none,
               player2_elo_before := none, player1_elo_change := none,
               player2_elo_change := none, completed_at := none,
               notes := none })],
                    nextMatchId := dbF.nextMatchId + 1 }) := by
  obtain ⟨hput, hpost⟩ := C3_one_score_request_not_scored tenPow1
  obtain ⟨h1, _, _, _, _, h6⟩ := hput dbC 1 5
      { player1_score := some (JVal.jint 7), player2_score := none, notes := none }
      matchC { elo_rating := 1024, active := true } { elo_rating := 976, active := true }
      (by decide) rfl rfl rfl (by decide)
  refine ⟨h1, h6 1, ?_⟩
  have h := hpost dbF
      { session_id := some 1, player1_id := some 1, player2_id := some 2,
        player1_score := some 7, player2_score := none, notes := none } 9
      1 1 2 { elo_rating := 1000, active := true } { elo_rating := 1000, active := true }
      (by decide) rfl (by decide) rfl (by decide) rfl (by decide) (by decide)
      rfl rfl (by decide)
  simpa [strFalsy] using h

/-- C5 (amended): score validation exists only on the update path:
`PUT /matches/{id}` with both score keys present rejects a non-integer
value ("Scores must be integers") and a negative integer
("Scores cannot be negative"), in that order, with no state change (the
transaction is rolled back).  (`POST /matches` performs no such
validation — see the C5 counterexample.) -/
theorem C5_put_rejects_invalid_scores (tenPow : ℚ → ℚ) (db : DB) (mid now : ℕ)
    (m : MatchR) (p1 p2 : PlayerR)
    (hm : db.matchRows.lookup mid = some m)
    (hp1 : db.players.lookup m.player1_id = some p1)
    (hp2 : db.players.lookup m.player2_id = some p2) :
    (∀ (data : PutData) (v1 v2 : JVal), data.player1_score = some v1 →
        data.player2_score = some v2 → (v1 = JVal.jnonint ∨ v2 = JVal.jnonint) →
        update_match tenPow db mid data now
          = (ApiResult.badRequest "Scores must be integers", db))
    ∧ (∀ (data : PutData) (s1 s2 : ℤ), data.player1_score = some (JVal.jint s1) →
        data.player2_score = some (JVal.jint s2) → (s1 < 0 ∨ s2 < 0) →
        update_match tenPow db mid data now
          = (ApiResult.badRequest "Scores cannot be negative", db)) := by
  constructor
  · intro data v1 v2 h1 h2 hbad
    cases v1 with
    | jint a =>
      cases v2 with
      | jint b =>
        rcases hbad with h | h <;> exact absurd h (by simp)
      | jnonint =>
        simp only [update_match, hm, hp1, hp2, h1, h2]
    | jnonint =>
      cases v2 <;> simp only [update_match, hm, hp1, hp2, h1, h2]
  · intro data s1 s2 h1 h2 hneg
    simp only [update_match, hm, hp1, hp2, h1, h2, if_pos hneg]

/-- Witness for C5's amended theorem: a non-integer score and a negative
score on `PUT /matches/1` are both rejected with the store unchanged. -/
theorem C5_put_rejects_witness :
    update_match tenPow1 dbC 1
        { player1_score := some JVal.jnonint, player2_score := some (JVal.jint 3),
          notes := none } 5
      = (ApiResult.badRequest "Scores must be integers", dbC)
    ∧ update_match tenPow1 dbC 1
        { player1_score := some (JVal.jint (-1)), player2_score := some (JVal.jint 3),
          notes := none } 5
      = (ApiResult.badRequest "Scores cannot be negative", dbC) := by
  obtain ⟨ha, hb⟩ := C5_put_rejects_invalid_scores tenPow1 dbC 1 5 matchC
      { elo_rating := 1024, active := true } { elo_rating := 976, active := true }
      rfl rfl rfl
  exact ⟨ha _ JVal.jnonint (JVal.jint 3) rfl rfl (Or.inl rfl),
         hb _ (-1) 3 rfl rfl (Or.inl (by decide))⟩

/-- Scalar view of a conditional rating bump. -/
theorem elo_applyIf (p : PlayerR) (cond : Prop) [Decidable cond] (d : ℤ) :
    (if cond then { p with elo_rating := p.elo_rating + d } else p).elo_rating
      = p.elo_rating + (if cond then d else 0) := by
  split_ifs <;> simp

/-- One step of `delete_session`'s revert loop, at the rating level: the
affected players lose exactly the stored per-side deltas. -/
theorem lookup_revertMatch (ps : List (ℕ × PlayerR)) (m : MatchR) (pid : ℕ) :
    ((revertMatch ps m).lookup pid).map PlayerR.elo_rating
      = ((ps.lookup pid).map PlayerR.elo_rating).map (fun r => r
          - ((if pid = m.player1_id then m.player1_elo_change.getD 0 else 0)
            + (if pid = m.player2_id then m.player2_elo_change.getD 0 else 0))) := by
  unfold revertMatch
  rcases hc1 : m.player1_elo_change with _ | d1 <;>
    rcases hc2 : m.player2_elo_change with _ | d2 <;>
      simp only [Option.isSome_none, Option.isSome_some, Bool.false_eq_true,
        if_false, if_true, Option.getD_some, Option.getD_none,
        lookup_applyDelta, Option.map_map] <;>
        rcases hl : ps.lookup pid with _ | p <;>
          simp only [Option.map_none', Option.map_some', Function.comp_apply,
            Option.some.injEq]
  all_goals
    first
      | rfl
      | (rw [elo_applyIf, elo_applyIf]
         split_ifs <;> ring)
      | (rw [elo_applyIf]
         split_ifs <;> ring)
      | (split_ifs <;> ring)

/-- The whole revert loop subtracts the summed stored deltas. -/
theorem lookup_revertFold (ms : List MatchR) (ps : List (ℕ × PlayerR)) (pid : ℕ) :
    ((ms.foldl revertMatch ps).lookup pid).map PlayerR.elo_rating
      = ((ps.lookup pid).map PlayerR.elo_rating).map (fun r => r - (ms.map (fun m =>
          (if pid = m.player1_id then m.player1_elo_change.getD 0 else 0)
          + (if pid = m.player2_id then m.player2_elo_change.getD 0 else 0))).sum) := by
  induction ms generalizing ps with
  | nil =>
    rcases hl : ps.lookup pid with _ | p
    · simp [hl]
    · simp [hl]
  | cons m t ih =>
    rw [List.foldl_cons, ih, lookup_revertMatch, Option.map_map, Option.map_map]
    rcases hl : ps.lookup pid with _ | p
    · simp [hl]
    · simp only [hl, Option.map_some', Function.comp_apply, Option.some.injEq,
        List.map_cons, List.sum_cons]
      ring

/-- C4: `DELETE /sessions/{id}` on an existing session answers ok, deletes
the session and all its matches, and subtracts each completed match's
stored deltas from the referenced players' ratings (unscored matches
contribute nothing to `sessionDelta`). -/
theorem C4_delete_session_reverts_and_deletes (db : DB) (sid : ℕ)
    (hs : sid ∈ db.sessions) :
    (delete_session db sid).1 = ApiResult.ok
    ∧ (delete_session db sid).2.sessions = db.sessions.erase sid
    ∧ (delete_session db sid).2.matchRows
        = db.matchRows.filter (fun e => e.2.session_id != sid)
    ∧ ∀ pid, ((delete_session db sid).2.players.lookup pid).map PlayerR.elo_rating
        = (db.players.lookup pid).map (fun p => p.elo_rating - sessionDelta db sid pid) := by
  simp only [delete_session, if_pos hs]
  refine ⟨trivial, trivial, trivial, ?_⟩
  intro pid
  rw [lookup_revertFold, Option.map_map]
  rcases hl : db.players.lookup pid with _ | p
  · simp [hl]
  · simp only [hl, Option.map_some', Function.comp_apply, Option.some.injEq]
    simp [sessionDelta]

/-- Witness for C4: deleting session 1 of `dbC4` (one completed match with
applied deltas +24 and -24, one unscored match) restores both ratings to their
pre-session value 1000 and removes the session and both matches. -/
theorem C4_delete_session_witness :
    (delete_session dbC4 1).1 = ApiResult.ok
    ∧ (delete_session dbC4 1).2.sessions = []
    ∧ (delete_session dbC4 1).2.matchRows = []
    ∧ ((delete_session dbC4 1).2.players.lookup 1).map PlayerR.elo_rating = some 1000
    ∧ ((delete_session dbC4 1).2.players.lookup 2).map PlayerR.elo_rating = some 1000 := by
  obtain ⟨h1, h2, h3, h4⟩ := C4_delete_session_reverts_and_deletes dbC4 1 (by decide)
  refine ⟨h1, ?_, ?_, ?_, ?_⟩
  · rw [h2]
    decide
  · rw [h3]
    decide
  · rw [h4 1]
    decide
  · rw [h4 2]
    decide

/-! ## Lemmas about `pairsOf` and the player-count check of `create_session` -/

theorem mem_pairsOf_cons (h : ℕ) (t : List ℕ) (x y : ℕ) :
    (x, y) ∈ pairsOf (h :: t) ↔ (x = h ∧ y ∈ t) ∨ (x, y) ∈ pairsOf t := by
  simp only [pairsOf, List.mem_append, List.mem_map, Prod.mk.injEq]
  constructor
  · rintro (⟨z, hz, hh, hy⟩ | hmem)
    · exact Or.inl ⟨hh.symm, hy ▸ hz⟩
    · exact Or.inr hmem
  · rintro (⟨hx, hy⟩ | hmem)
    · exact Or.inl ⟨y, hy, hx.symm, rfl⟩
    · exact Or.inr hmem

theorem pairsOf_sound {l : List ℕ} {a b : ℕ} (h : (a, b) ∈ pairsOf l) :
    a ∈ l ∧ b ∈ l := by
  induction l with
  | nil => simp [pairsOf] at h
  | cons x t ih =>
    rcases (mem_pairsOf_cons x t a b).mp h with ⟨rfl, hb⟩ | hmem
    · exact ⟨List.mem_cons_self _ _, List.mem_cons_of_mem _ hb⟩
    · obtain ⟨ha, hb⟩ := ih hmem
      exact ⟨List.mem_cons_of_mem _ ha, List.mem_cons_of_mem _ hb⟩

theorem pairsOf_cover {l : List ℕ} {a b : ℕ} (ha : a ∈ l) (hb : b ∈ l) (hne : a ≠ b) :
    (a, b) ∈ pairsOf l ∨ (b, a) ∈ pairsOf l := by
  induction l with
  | nil => simp at ha
  | cons x t ih =>
    rcases List.mem_cons.mp ha with rfl | ha'
    · have hb' : b ∈ t := by
        rcases List.mem_cons.mp hb with hba | h
        · exact absurd hba.symm hne
        · exact h
      exact Or.inl ((mem_pairsOf_cons _ _ _ _).mpr (Or.inl ⟨rfl, hb'⟩))
    · rcases List.mem_cons.mp hb with rfl | hb'
      · exact Or.inr ((mem_pairsOf_cons _ _ _ _).mpr (Or.inl ⟨rfl, ha'⟩))
      · rcases ih ha' hb' with h | h
        · exact Or.inl ((mem_pairsOf_cons _ _ _ _).mpr (Or.inr h))
        · exact Or.inr ((mem_pairsOf_cons _ _ _ _).mpr (Or.inr h))

theorem pairsOf_nodup {l : List ℕ} (h : l.Nodup) : (pairsOf l).Nodup := by
  induction l with
  | nil => simp [pairsOf]
  | cons x t ih =>
    obtain ⟨hx, ht⟩ := List.nodup_cons.mp h
    refine List.Nodup.append ?_ (ih ht) ?_
    · exact ht.map (fun a b hab => ((Prod.mk.injEq _ _ _ _).mp hab).2)
    · intro p hp1 hp2
      obtain ⟨z, hz, rfl⟩ := List.mem_map.mp hp1
      exact hx ((pairsOf_sound hp2).1 : x ∈ t)

theorem pairsOf_not_mem_swap {l : List ℕ} (h : l.Nodup) {a b : ℕ}
    (hab : (a, b) ∈ pairsOf l) : (b, a) ∉ pairsOf l ∧ a ≠ b := by
  induction l with
  | nil => simp [pairsOf] at hab
  | cons x t ih =>
    obtain ⟨hx, ht⟩ := List.nodup_cons.mp h
    rcases (mem_pairsOf_cons _ _ _ _).mp hab with ⟨rfl, hb⟩ | hmem
    · have hneq : a ≠ b := fun he => hx (he ▸ hb)
      refine ⟨?_, hneq⟩
      intro hba
      rcases (mem_pairsOf_cons _ _ _ _).mp hba with ⟨hbx, ha'⟩ | hmem'
      · exact hneq hbx.symm
      · exact hx (pairsOf_sound hmem').2
    · obtain ⟨hswap, hneq⟩ := ih ht hmem
      refine ⟨?_, hneq⟩
      intro hba
      rcases (mem_pairsOf_cons _ _ _ _).mp hba with ⟨hbx, ha'⟩ | hmem'
      · exact hx (hbx ▸ (pairsOf_sound hmem).2)
      · exact hswap hmem'

theorem pairsOf_length (l : List ℕ) : (pairsOf l).length * 2 = l.length * (l.length - 1) := by
  induction l with
  | nil => rfl
  | cons x t ih =>
    simp only [pairsOf, List.length_append, List.length_map, List.length_cons,
      Nat.add_sub_cancel]
    obtain ⟨k, hk⟩ : ∃ k, t.length = k := ⟨_, rfl⟩
    rw [hk] at ih ⊢
    cases k with
    | zero => omega
    | succ n =>
      simp only [Nat.succ_sub_one] at ih ⊢
      nlinarith [ih]

/-- The keys of the rows that pass `create_session`'s `id ∈ player_ids`
filter form a duplicate-free list of members of `player_ids`. -/
theorem foundKeys_facts (db : DB) (ids : List ℕ)
    (hkeys : (db.players.map Prod.fst).Nodup) :
    ((db.players.filter (fun e => ids.contains e.1)).map Prod.fst).Nodup
    ∧ ∀ x ∈ (db.players.filter (fun e => ids.contains e.1)).map Prod.fst, x ∈ ids := by
  constructor
  · exact hkeys.sublist ((db.players.filter_sublist (p := fun e => ids.contains e.1)).map Prod.fst)
  · intro x hx
    obtain ⟨e, he, rfl⟩ := List.mem_map.mp hx
    have := List.of_mem_filter he
    exact List.elem_iff.mp this

/-- With duplicate-free keys, duplicate-free requested ids all present in
the store make the count check succeed with equality. -/
theorem foundCount_eq (db : DB) (ids : List ℕ)
    (hkeys : (db.players.map Prod.fst).Nodup) (hnd : ids.Nodup)
    (hex : ∀ i ∈ ids, i ∈ db.players.map Prod.fst) :
    (db.players.filter (fun e => ids.contains e.1)).length = ids.length := by
  obtain ⟨hFnd, hFsub⟩ := foundKeys_facts db ids hkeys
  have hlen : (db.players.filter (fun e => ids.contains e.1)).length
      = ((db.players.filter (fun e => ids.contains e.1)).map Prod.fst).length :=
    (List.length_map _ _).symm
  rw [hlen]
  have hsub2 : ∀ i ∈ ids, i ∈ (db.players.filter (fun e => ids.contains e.1)).map Prod.fst := by
    intro i hi
    obtain ⟨e, he, heq⟩ := List.mem_map.mp (hex i hi)
    refine List.mem_map.mpr ⟨e, List.mem_filter.mpr ⟨he, ?_⟩, heq⟩
    rw [heq]
    exact List.elem_iff.mpr hi
  have h1 : ((db.players.filter (fun e => ids.contains e.1)).map Prod.fst).toFinset
      = ids.toFinset := by
    apply Finset.Subset.antisymm
    · intro x hx
      exact List.mem_toFinset.mpr (hFsub x (List.mem_toFinset.mp hx))
    · intro x hx
      exact List.mem_toFinset.mpr (hsub2 x (List.mem_toFinset.mp hx))
  calc ((db.players.filter (fun e => ids.contains e.1)).map Prod.fst).length
      = ((db.players.filter (fun e => ids.contains e.1)).map Prod.fst).toFinset.card :=
        (List.toFinset_card_of_nodup hFnd).symm
    _ = ids.toFinset.card := by rw [h1]
    _ = ids.length := List.toFinset_card_of_nodup hnd

/-- The count check fails strictly when the requested ids contain a
duplicate. -/
theorem foundCount_lt_of_dup (db : DB) (ids : List ℕ)
    (hkeys : (db.players.map Prod.fst).Nodup) (hdup : ¬ ids.Nodup) :
    (db.players.filter (fun e => ids.contains e.1)).length < ids.length := by
  obtain ⟨hFnd, hFsub⟩ := foundKeys_facts db ids hkeys
  have hdl : ids.dedup.length < ids.length := by
    have hsub := ids.dedup_sublist
    have hle := hsub.length_le
    rcases lt_or_eq_of_le hle with h | h
    · exact h
    · exact absurd (hsub.eq_of_length h ▸ ids.nodup_dedup) hdup
  calc (db.players.filter (fun e => ids.contains e.1)).length
      = ((db.players.filter (fun e => ids.contains e.1)).map Prod.fst).length :=
        (List.length_map _ _).symm
    _ = ((db.players.filter (fun e => ids.contains e.1)).map Prod.fst).toFinset.card :=
        (List.toFinset_card_of_nodup hFnd).symm
    _ ≤ ids.toFinset.card := by
        apply Finset.card_le_card
        intro x hx
        exact List.mem_toFinset.mpr (hFsub x (List.mem_toFinset.mp hx))
    _ = ids.dedup.length := List.card_toFinset ids
    _ < ids.length := hdl

/-- The count check fails strictly when some requested id is absent from
the store. -/
theorem foundCount_lt_of_missing (db : DB) (ids : List ℕ) (i : ℕ)
    (hkeys : (db.players.map Prod.fst).Nodup) (hi : i ∈ ids)
    (hmiss : i ∉ db.players.map Prod.fst) :
    (db.players.filter (fun e => ids.contains e.1)).length < ids.length := by
  obtain ⟨hFnd, hFsub⟩ := foundKeys_facts db ids hkeys
  have hiF : i ∉ (db.players.filter (fun e => ids.contains e.1)).map Prod.fst := by
    intro hin
    obtain ⟨e, he, heq⟩ := List.mem_map.mp hin
    exact hmiss (List.mem_map.mpr ⟨e, List.mem_of_mem_filter he, heq⟩)
  calc (db.players.filter (fun e => ids.contains e.1)).length
      = ((db.players.filter (fun e => ids.contains e.1)).map Prod.fst).length :=
        (List.length_map _ _).symm
    _ = ((db.players.filter (fun e => ids.contains e.1)).map Prod.fst).toFinset.card :=
        (List.toFinset_card_of_nodup hFnd).symm
    _ ≤ (ids.toFinset.erase i).card := by
        apply Finset.card_le_card
        intro x hx
        have hxF := List.mem_toFinset.mp hx
        refine Finset.mem_erase.mpr ⟨?_, List.mem_toFinset.mpr (hFsub x hxF)⟩
        intro hxi
        exact hiF (hxi ▸ hxF)
    _ < ids.toFinset.card :=
        Finset.card_erase_lt_of_mem (List.mem_toFinset.mpr hi)
    _ ≤ ids.length := List.toFinset_card_le ids

/-- C6: `POST /sessions` with `N ≥ 2` distinct existing player ids creates
exactly one session plus `N*(N-1)/2` unscored matches, one for each
unordered pair of the given players (for `[P1,P2,P3]` the pairs
`(P1,P2),(P1,P3),(P2,P3)`); fewer than two ids, or a non-existent id, is
rejected with no session or matches created. -/
theorem C6_create_session_pairs (db : DB) (hkeys : (db.players.map Prod.fst).Nodup) :
    (∀ ids : List ℕ, ids.Nodup → 2 ≤ ids.length →
      (∀ i ∈ ids, i ∈ db.players.map Prod.fst) →
      (create_session db ids).1 = ApiResult.ok
      ∧ (create_session db ids).2.players = db.players
      ∧ (create_session db ids).2.sessions = db.sessions ++ [db.nextSessionId]
      ∧ (create_session db ids).2.matchRows
          = db.matchRows ++ withIds db.nextMatchId
              ((pairsOf ids).map (fun pr => unscoredMatch db.nextSessionId pr.1 pr.2))
      ∧ (pairsOf ids).length = ids.length * (ids.length - 1) / 2
      ∧ (∀ pr ∈ pairsOf ids, pr.1 ∈ ids ∧ pr.2 ∈ ids ∧ pr.1 ≠ pr.2)
      ∧ (∀ a ∈ ids, ∀ b ∈ ids, a ≠ b → (a, b) ∈ pairsOf ids ∨ (b, a) ∈ pairsOf ids)
      ∧ (∀ a b : ℕ, (a, b) ∈ pairsOf ids → (b, a) ∉ pairsOf ids)
      ∧ (pairsOf ids).Nodup)
    ∧ (∀ ids : List ℕ, ids.length < 2 →
        create_session db ids = (ApiResult.badRequest "At least 2 players are required", db))
    ∧ (∀ (ids : List ℕ) (i : ℕ), 2 ≤ ids.length → i ∈ ids →
        i ∉ db.players.map Prod.fst →
        create_session db ids = (ApiResult.notFound, db))
    ∧ (∀ a b c : ℕ, pairsOf [a, b, c] = [(a, b), (a, c), (b, c)]) := by
  refine ⟨?_, ?_, ?_, ?_⟩
  · intro ids hnd hlen hex
    have hcount := foundCount_eq db ids hkeys hnd hex
    have hnot : ¬ (ids.length < 2) := by omega
    have h2 : ¬ ((db.players.filter (fun e => ids.contains e.1)).length ≠ ids.length) := by
      rw [hcount]
      exact fun h => h rfl
    simp only [create_session, if_neg hnot, if_neg h2]
    refine ⟨trivial, trivial, trivial, trivial, ?_, ?_, ?_, ?_, ?_⟩
    · have := pairsOf_length ids
      omega
    · intro pr hpr
      obtain ⟨a, b⟩ := pr
      obtain ⟨ha, hb⟩ := pairsOf_sound hpr
      exact ⟨ha, hb, (pairsOf_not_mem_swap hnd hpr).2⟩
    · intro a ha b hb hab
      exact pairsOf_cover ha hb hab
    · intro a b hab
      exact (pairsOf_not_mem_swap hnd hab).1
    · exact pairsOf_nodup hnd
  · intro ids h
    simp only [create_session, if_pos h]
  · intro ids i hlen hi hmiss
    have hlt := foundCount_lt_of_missing db ids i hkeys hi hmiss
    simp only [create_session, if_neg (by omega : ¬ ids.length < 2), if_pos (ne_of_lt hlt)]
  · intro a b c
    rfl

/-- Witness for C6: two distinct existing players produce one unscored
match; one id is rejected; a non-existent id is rejected; the three-player
pair list. -/
theorem C6_create_session_witness :
    (create_session dbF [1, 2]).1 = ApiResult.ok
    ∧ (create_session dbF [1, 2]).2.matchRows = [(1, unscoredMatch 2 1 2)]
    ∧ (pairsOf [1, 2]).length = 1
    ∧ create_session dbF [1] = (ApiResult.badRequest "At least 2 players are required", dbF)
    ∧ create_session dbF [1, 5] = (ApiResult.notFound, dbF)
    ∧ pairsOf [7, 8, 9] = [(7, 8), (7, 9), (8, 9)] := by
  obtain ⟨hok, hrej2, hmiss, htriple⟩ := C6_create_session_pairs dbF (by decide)
  obtain ⟨h1, h2, h3, h4, h5, _⟩ := hok [1, 2] (by decide) (by decide) (by decide)
  refine ⟨h1, ?_, ?_, hrej2 [1] (by decide),
    hmiss [1, 5] 5 (by decide) (by decide) (by decide), htriple 7 8 9⟩
  · rw [h4]
    decide
  · rw [h5]
    decide

/-- C10: `POST /sessions` with a duplicated player id is rejected — the
count of distinct stored players whose id occurs in the list is strictly
below the list's length, so the equality check fails — and the store is
unchanged (no session, no matches). -/
theorem C10_duplicate_player_ids_rejected (db : DB) (ids : List ℕ)
    (hkeys : (db.players.map Prod.fst).Nodup) (hdup : ¬ ids.Nodup) :
    (db.players.filter (fun e => ids.contains e.1)).length ≠ ids.length
    ∧ create_session db ids = (ApiResult.notFound, db) := by
  have hlt := foundCount_lt_of_dup db ids hkeys hdup
  have hlen : 2 ≤ ids.length := by
    rcases ids with _ | ⟨a, _ | ⟨b, t⟩⟩
    · exact absurd List.nodup_nil hdup
    · exact absurd (List.nodup_singleton a) hdup
    · simp only [List.length_cons]
      omega
  refine ⟨ne_of_lt hlt, ?_⟩
  simp only [create_session, if_neg (by omega : ¬ ids.length < 2), if_pos (ne_of_lt hlt)]

/-- Witness for C10 at the claim's example `[1, 1]`. -/
theorem C10_duplicate_witness :
    (dbF.players.filter (fun e => [1, 1].contains e.1)).length ≠ 2
    ∧ create_session dbF [1, 1] = (ApiResult.notFound, dbF) := by
  have h := C10_duplicate_player_ids_rejected dbF [1, 1] (by decide) (by decide)
  exact ⟨h.1, h.2⟩

/-- C7 counterexample: on a store whose only completed match is a tie
(`winner_id = none`), the leaderboard counts the tie as a loss and awards
each player `1` point, not the `0` points per tie the claim requires. -/
theorem C7_counterexample_tie_scores_one_point :
    (dbTie.matchRows.map Prod.snd).map MatchR.winner_id = [none]
    ∧ (get_leaderboard dbTie).map LBEntry.total_points = [1, 1]
    ∧ (get_leaderboard dbTie).map LBEntry.losses = [1, 1]
    ∧ (get_leaderboard dbTie).map LBEntry.wins = [0, 0] := by
  refine ⟨by decide, by decide, by decide, by decide⟩

/-- Partition of a completed-match list by outcome for `pid`: every match
is a win for `pid`, a tie, or a loss. -/
theorem length_eq_wins_ties_losses (ms : List MatchR) (pid : ℕ) :
    ms.length = ms.countP (fun m => m.winner_id == some pid)
      + ms.countP (fun m => m.winner_id == none)
      + ms.countP (fun m => m.winner_id != none && m.winner_id != some pid) := by
  induction ms with
  | nil => rfl
  | cons m t ih =>
    simp only [List.length_cons, List.countP_cons]
    rcases hw : m.winner_id with _ | w
    · simp
      omega
    · by_cases hwp : w = pid
      · subst hwp
        simp
        omega
      · simp [hwp]
        omega

/-- C7 (amended): each leaderboard entry belongs to an active player with
at least one completed match, `wins` counts the matches whose `winner` is
that player, `matches_played` counts wins, ties and losses alike, and the
points tally awards 3 per win, 1 per loss, **and 1 per tie** (ties are
folded into the `losses` figure); players with zero completed matches are
excluded even if active. -/
theorem C7_leaderboard_figures (db : DB) :
    (∀ e ∈ get_leaderboard db,
      (∃ p : PlayerR, (e.id, p) ∈ db.players ∧ p.active = true
        ∧ e.elo_rating = p.elo_rating)
      ∧ completedFor db e.id ≠ []
      ∧ e.matches_played = (completedFor db e.id).length
      ∧ e.wins = winsOf db e.id
      ∧ e.matches_played = winsOf db e.id + tiesOf db e.id + lossesOf db e.id
      ∧ e.total_points = 3 * winsOf db e.id + lossesOf db e.id + tiesOf db e.id)
    ∧ (∀ (pid : ℕ) (p : PlayerR), (pid, p) ∈ db.players → p.active = true →
        completedFor db pid ≠ [] → ∃ e ∈ get_leaderboard db, e.id = pid) := by
  constructor
  · intro e he
    obtain ⟨a, ha, hfa⟩ := List.mem_filterMap.mp he
    obtain ⟨hmem, hact⟩ := List.mem_filter.mp ha
    by_cases hempty : (completedFor db a.1).isEmpty = true
    case pos =>
      simp only [hempty, if_true] at hfa
      exact Option.noConfusion hfa
    case neg =>
      simp only [if_neg hempty] at hfa
      obtain rfl := (Option.some.inj hfa).symm
      have hne : completedFor db a.1 ≠ [] := by
        intro hnil
        apply hempty
        rw [hnil]
        rfl
      have hwins : ((completedFor db a.1).filter
          (fun m => m.winner_id == some a.1)).length = winsOf db a.1 := by
        rw [winsOf, List.countP_eq_length_filter]
      have hpart := length_eq_wins_ties_losses (completedFor db a.1) a.1
      refine ⟨⟨a.2, hmem, hact, rfl⟩, hne, rfl, hwins, ?_, ?_⟩
      · simp only [winsOf, tiesOf, lossesOf]
        exact hpart
      · simp only [hwins]
        simp only [winsOf, tiesOf, lossesOf] at hpart ⊢
        have hle : (completedFor db a.1).countP (fun m => m.winner_id == some a.1)
            ≤ (completedFor db a.1).length := List.countP_le_length _
        omega
  · intro pid p hmem hact hne
    have hempty : ¬ (completedFor db pid).isEmpty = true := by
      intro h
      exact hne (List.isEmpty_iff.mp h)
    refine ⟨mkLBEntry db pid p, List.mem_filterMap.mpr ⟨(pid, p),
      List.mem_filter.mpr ⟨hmem, hact⟩, ?_⟩, rfl⟩
    simp only [if_neg hempty]
    rfl

/-- Witness for C7's amended theorem on `dbTie`: the tie is counted in
`matches_played` and in the points (1 each), and player 1 appears. -/
theorem C7_leaderboard_witness :
    tieEntry ∈ get_leaderboard dbTie
    ∧ tieEntry.matches_played = winsOf dbTie 1 + tiesOf dbTie 1 + lossesOf dbTie 1
    ∧ tieEntry.total_points = 3 * winsOf dbTie 1 + lossesOf dbTie 1 + tiesOf dbTie 1
    ∧ ∃ e ∈ get_leaderboard dbTie, e.id = 1 := by
  have hmem : tieEntry ∈ get_leaderboard dbTie := by decide
  obtain ⟨hfig, hinc⟩ := C7_leaderboard_figures dbTie
  obtain ⟨_, _, _, _, hpart, hpoints⟩ := hfig _ hmem
  exact ⟨hmem, hpart, hpoints,
    hinc 1 { elo_rating := 1000, active := true } (by decide) rfl (by decide)⟩

/-! ## Lemmas for the highlights gain/loss loops -/

theorem hlGainAux_eq_foldl (best : Option HLCand) (l : List (ℕ × MatchR)) :
    hlGainAux best l = (hlCands l).foldl stepGain best := by
  induction l generalizing best with
  | nil => rfl
  | cons e t ih =>
    obtain ⟨i, m⟩ := e
    by_cases h : (truthyInt m.player1_elo_change && truthyInt m.player2_elo_change) = true <;>
      simp [hlGainAux, hlCands, h, ih]

theorem hlLossAux_eq_foldl (best : Option HLCand) (l : List (ℕ × MatchR)) :
    hlLossAux best l = (hlCands l).foldl stepLoss best := by
  induction l generalizing best with
  | nil => rfl
  | cons e t ih =>
    obtain ⟨i, m⟩ := e
    by_cases h : (truthyInt m.player1_elo_change && truthyInt m.player2_elo_change) = true <;>
      simp [hlLossAux, hlCands, h, ih]

/-- Folding the strict-greater update over a candidate list starting from
`some b` yields the first maximum of `b` and the list: every candidate is
`≤` the result, and the result is `b` itself or the first list element
strictly above everything before it (and above `b`). -/
theorem foldl_stepGain_some_spec (t : List HLCand) (b : HLCand) :
    ∃ c, t.foldl stepGain (some b) = some c
      ∧ b.2.2 ≤ c.2.2
      ∧ (∀ x ∈ t, x.2.2 ≤ c.2.2)
      ∧ (c = b ∨ ∃ pre post, t = pre ++ c :: post ∧ b.2.2 < c.2.2
          ∧ ∀ x ∈ pre, x.2.2 < c.2.2) := by
  induction t generalizing b with
  | nil => exact ⟨b, rfl, le_refl _, by simp, Or.inl rfl⟩
  | cons a t ih =>
    rw [List.foldl_cons]
    by_cases h : a.2.2 > b.2.2
    · have hstep : stepGain (some b) a = some a := by simp [stepGain, h]
      rw [hstep]
      obtain ⟨c, hc, hbc, hall, hfirst⟩ := ih a
      refine ⟨c, hc, le_trans (le_of_lt h) hbc, ?_, ?_⟩
      · intro x hx
        rcases List.mem_cons.mp hx with rfl | hx'
        · exact hbc
        · exact hall x hx'
      · rcases hfirst with rfl | ⟨pre, post, ht, hlt, hpre⟩
        · exact Or.inr ⟨[], t, rfl, h, by simp⟩
        · refine Or.inr ⟨a :: pre, post, by simp [ht], lt_trans h hlt, ?_⟩
          intro x hx
          rcases List.mem_cons.mp hx with rfl | hx'
          · exact hlt
          · exact hpre x hx'
    · have hstep : stepGain (some b) a = some b := by simp [stepGain, h]
      rw [hstep]
      obtain ⟨c, hc, hbc, hall, hfirst⟩ := ih b
      have hab : a.2.2 ≤ b.2.2 := le_of_not_lt h
      refine ⟨c, hc, hbc, ?_, ?_⟩
      · intro x hx
        rcases List.mem_cons.mp hx with rfl | hx'
        · exact le_trans hab hbc
        · exact hall x hx'
      · rcases hfirst with rfl | ⟨pre, post, ht, hlt, hpre⟩
        · exact Or.inl rfl
        · refine Or.inr ⟨a :: pre, post, by simp [ht], hlt, ?_⟩
          intro x hx
          rcases List.mem_cons.mp hx with rfl | hx'
          · exact lt_of_le_of_lt hab hlt
          · exact hpre x hx'

/-- Same fold starting from `none`: empty list gives `none`, otherwise the
first maximum of the list. -/
theorem foldl_stepGain_none_spec (l : List HLCand) :
    (l = [] ∧ l.foldl stepGain none = none)
    ∨ ∃ c, l.foldl stepGain none = some c
        ∧ (∀ x ∈ l, x.2.2 ≤ c.2.2)
        ∧ ∃ pre post, l = pre ++ c :: post ∧ ∀ x ∈ pre, x.2.2 < c.2.2 := by
  cases l with
  | nil => exact Or.inl ⟨rfl, rfl⟩
  | cons a t =>
    rw [List.foldl_cons]
    obtain ⟨c, hc, hbc, hall, hfirst⟩ := foldl_stepGain_some_spec t a
    refine Or.inr ⟨c, hc, ?_, ?_⟩
    · intro x hx
      rcases List.mem_cons.mp hx with rfl | hx'
      · exact hbc
      · exact hall x hx'
    · rcases hfirst with rfl | ⟨pre, post, ht, hlt, hpre⟩
      · exact ⟨[], t, rfl, by simp⟩
      · refine ⟨a :: pre, post, by simp [ht], ?_⟩
        intro x hx
        rcases List.mem_cons.mp hx with rfl | hx'
        · exact hlt
        · exact hpre x hx'

/-- Mirror of `foldl_stepGain_some_spec` for the strict-less loss loop. -/
theorem foldl_stepLoss_some_spec (t : List HLCand) (b : HLCand) :
    ∃ c, t.foldl stepLoss (some b) = some c
      ∧ c.2.2 ≤ b.2.2
      ∧ (∀ x ∈ t, c.2.2 ≤ x.2.2)
      ∧ (c = b ∨ ∃ pre post, t = pre ++ c :: post ∧ c.2.2 < b.2.2
          ∧ ∀ x ∈ pre, c.2.2 < x.2.2) := by
  induction t generalizing b with
  | nil => exact ⟨b, rfl, le_refl _, by simp, Or.inl rfl⟩
  | cons a t ih =>
    rw [List.foldl_cons]
    by_cases h : a.2.2 < b.2.2
    · have hstep : stepLoss (some b) a = some a := by simp [stepLoss, h]
      rw [hstep]
      obtain ⟨c, hc, hbc, hall, hfirst⟩ := ih a
      refine ⟨c, hc, le_trans hbc (le_of_lt h), ?_, ?_⟩
      · intro x hx
        rcases List.mem_cons.mp hx with rfl | hx'
        · exact hbc
        · exact hall x hx'
      · rcases hfirst with rfl | ⟨pre, post, ht, hlt, hpre⟩
        · exact Or.inr ⟨[], t, rfl, h, by simp⟩
        · refine Or.inr ⟨a :: pre, post, by simp [ht], lt_trans hlt h, ?_⟩
          intro x hx
          rcases List.mem_cons.mp hx with rfl | hx'
          · exact hlt
          · exact hpre x hx'
    · have hstep : stepLoss (some b) a = some b := by simp [stepLoss, h]
      rw [hstep]
      obtain ⟨c, hc, hbc, hall, hfirst⟩ := ih b
      have hab : b.2.2 ≤ a.2.2 := le_of_not_lt h
      refine ⟨c, hc, hbc, ?_, ?_⟩
      · intro x hx
        rcases List.mem_cons.mp hx with rfl | hx'
        · exact le_trans hbc hab
        · exact hall x hx'
      · rcases hfirst with rfl | ⟨pre, post, ht, hlt, hpre⟩
        · exact Or.inl rfl
        · refine Or.inr ⟨a :: pre, post, by simp [ht], hlt, ?_⟩
          intro x hx
          rcases List.mem_cons.mp hx with rfl | hx'
          · exact lt_of_lt_of_le hlt hab
          · exact hpre x hx'

/-- Mirror of `foldl_stepGain_none_spec` for the loss loop. -/
theorem foldl_stepLoss_none_spec (l : List HLCand) :
    (l = [] ∧ l.foldl stepLoss none = none)
    ∨ ∃ c, l.foldl stepLoss none = some c
        ∧ (∀ x ∈ l, c.2.2 ≤ x.2.2)
        ∧ ∃ pre post, l = pre ++ c :: post ∧ ∀ x ∈ pre, c.2.2 < x.2.2 := by
  cases l with
  | nil => exact Or.inl ⟨rfl, rfl⟩
  | cons a t =>
    rw [List.foldl_cons]
    obtain ⟨c, hc, hbc, hall, hfirst⟩ := foldl_stepLoss_some_spec t a
    refine Or.inr ⟨c, hc, ?_, ?_⟩
    · intro x hx
      rcases List.mem_cons.mp hx with rfl | hx'
      · exact hbc
      · exact hall x hx'
    · rcases hfirst with rfl | ⟨pre, post, ht, hlt, hpre⟩
      · exact ⟨[], t, rfl, by simp⟩
      · refine ⟨a :: pre, post, by simp [ht], ?_⟩
        intro x hx
        rcases List.mem_cons.mp hx with rfl | hx'
        · exact hlt
        · exact hpre x hx'

theorem allDeltas_cons (m : MatchR) (t : List MatchR) :
    allDeltas (m :: t)
      = m.player1_elo_change.getD 0 :: m.player2_elo_change.getD 0 :: allDeltas t := rfl

/-- Every candidate value the highlights loop sees is one of the per-player
deltas of the match list. -/
theorem hlCands_val_mem_allDeltas (ms : List MatchR) (n : ℕ) :
    ∀ c ∈ hlCands (ms.enumFrom n), c.2.2 ∈ allDeltas ms := by
  induction ms generalizing n with
  | nil => intro c hc; simp [List.enumFrom, hlCands] at hc
  | cons m t ih =>
    intro c hc
    have he : (m :: t).enumFrom n = (n, m) :: t.enumFrom (n + 1) := rfl
    rw [he] at hc
    rw [allDeltas_cons]
    by_cases h : (truthyInt m.player1_elo_change && truthyInt m.player2_elo_change) = true
    · rw [show hlCands ((n, m) :: t.enumFrom (n + 1))
          = (n, false, m.player1_elo_change.getD 0)
            :: (n, true, m.player2_elo_change.getD 0) :: hlCands (t.enumFrom (n + 1))
          from by simp [hlCands, h]] at hc
      rcases List.mem_cons.mp hc with rfl | hc
      · exact List.mem_cons_self _ _
      rcases List.mem_cons.mp hc with rfl | hc
      · exact List.mem_cons_of_mem _ (List.mem_cons_self _ _)
      · exact List.mem_cons_of_mem _ (List.mem_cons_of_mem _ (ih (n + 1) c hc))
    · rw [show hlCands ((n, m) :: t.enumFrom (n + 1)) = hlCands (t.enumFrom (n + 1))
          from by simp [hlCands, h]] at hc
      exact List.mem_cons_of_mem _ (List.mem_cons_of_mem _ (ih (n + 1) c hc))

/-- Under the invariant that each match stores opposite deltas, every
candidate has a nonzero value and a twin candidate with the negated value. -/
theorem hlCands_twin (ms : List MatchR) (n : ℕ)
    (hpairs : ∀ m ∈ ms, ∃ d : ℤ, m.player1_elo_change = some d
      ∧ m.player2_elo_change = some (-d)) :
    ∀ c ∈ hlCands (ms.enumFrom n), c.2.2 ≠ 0
      ∧ ∃ c' ∈ hlCands (ms.enumFrom n), c'.2.2 = -c.2.2 := by
  induction ms generalizing n with
  | nil => intro c hc; simp [List.enumFrom, hlCands] at hc
  | cons m t ih =>
    intro c hc
    obtain ⟨d, hd1, hd2⟩ := hpairs m (List.mem_cons_self m t)
    have hpairs' : ∀ m' ∈ t, ∃ d : ℤ, m'.player1_elo_change = some d
        ∧ m'.player2_elo_change = some (-d) :=
      fun m' hm' => hpairs m' (List.mem_cons_of_mem m hm')
    have he : (m :: t).enumFrom n = (n, m) :: t.enumFrom (n + 1) := rfl
    rw [he] at hc ⊢
    by_cases hd0 : d = 0
    · have h : (truthyInt m.player1_elo_change && truthyInt m.player2_elo_change) = false := by
        simp [truthyInt, hd1, hd2, hd0]
      rw [show hlCands ((n, m) :: t.enumFrom (n + 1)) = hlCands (t.enumFrom (n + 1))
          from by simp [hlCands, h]] at hc ⊢
      exact ih (n + 1) hpairs' c hc
    · have h : (truthyInt m.player1_elo_change && truthyInt m.player2_elo_change) = true := by
        simp [truthyInt, hd1, hd2, hd0]
      rw [show hlCands ((n, m) :: t.enumFrom (n + 1))
          = (n, false, d) :: (n, true, -d) :: hlCands (t.enumFrom (n + 1))
          from by simp [hlCands, truthyInt, hd1, hd2, hd0]] at hc ⊢
      rcases List.mem_cons.mp hc with rfl | hc
      · exact ⟨hd0, (n, true, -d), List.mem_cons_of_mem _ (List.mem_cons_self _ _), rfl⟩
      rcases List.mem_cons.mp hc with rfl | hc
      · exact ⟨neg_ne_zero.mpr hd0, (n, false, d), List.mem_cons_self _ _, (neg_neg d).symm⟩
      · obtain ⟨hne, c', hc', hval⟩ := ih (n + 1) hpairs' c hc
        exact ⟨hne, c', List.mem_cons_of_mem _ (List.mem_cons_of_mem _ hc'), hval⟩

/-- Under the opposite-deltas invariant the loop offers no candidate at all
exactly when every per-player delta is zero. -/
theorem hlCands_eq_nil_iff (ms : List MatchR) (n : ℕ)
    (hpairs : ∀ m ∈ ms, ∃ d : ℤ, m.player1_elo_change = some d
      ∧ m.player2_elo_change = some (-d)) :
    hlCands (ms.enumFrom n) = [] ↔ ∀ d ∈ allDeltas ms, d = 0 := by
  induction ms generalizing n with
  | nil => simp [List.enumFrom, hlCands, allDeltas]
  | cons m t ih =>
    obtain ⟨d, hd1, hd2⟩ := hpairs m (List.mem_cons_self m t)
    have hpairs' : ∀ m' ∈ t, ∃ d : ℤ, m'.player1_elo_change = some d
        ∧ m'.player2_elo_change = some (-d) :=
      fun m' hm' => hpairs m' (List.mem_cons_of_mem m hm')
    have he : (m :: t).enumFrom n = (n, m) :: t.enumFrom (n + 1) := rfl
    have hcons : allDeltas (m :: t) = d :: -d :: allDeltas t := by
      rw [allDeltas_cons, hd1, hd2]; rfl
    rw [he]
    by_cases hd0 : d = 0
    · have h : (truthyInt m.player1_elo_change && truthyInt m.player2_elo_change) = false := by
        simp [truthyInt, hd1, hd2, hd0]
      rw [show hlCands ((n, m) :: t.enumFrom (n + 1)) = hlCands (t.enumFrom (n + 1))
          from by simp [hlCands, h], ih (n + 1) hpairs', hcons, hd0]
      simp
    · have h : (truthyInt m.player1_elo_change && truthyInt m.player2_elo_change) = true := by
        simp [truthyInt, hd1, hd2, hd0]
      rw [show hlCands ((n, m) :: t.enumFrom (n + 1))
          = (n, false, d) :: (n, true, -d) :: hlCands (t.enumFrom (n + 1))
          from by simp [hlCands, truthyInt, hd1, hd2, hd0]]
      refine iff_of_false (by simp) ?_
      intro hall
      exact hd0 (hall d (by rw [hcons]; exact List.mem_cons_self _ _))

/-- A nonnegative bound on every candidate value bounds every delta, since
zero deltas are the only ones the loop skips. -/
theorem allDeltas_le_of_cands (ms : List MatchR) (n : ℕ) (v : ℤ)
    (hpairs : ∀ m ∈ ms, ∃ d : ℤ, m.player1_elo_change = some d
      ∧ m.player2_elo_change = some (-d))
    (hv : 0 ≤ v)
    (hc : ∀ c ∈ hlCands (ms.enumFrom n), c.2.2 ≤ v) :
    ∀ d ∈ allDeltas ms, d ≤ v := by
  induction ms generalizing n with
  | nil => intro d hd; simp [allDeltas] at hd
  | cons m t ih =>
    obtain ⟨d0, hd1, hd2⟩ := hpairs m (List.mem_cons_self m t)
    have hpairs' : ∀ m' ∈ t, ∃ d : ℤ, m'.player1_elo_change = some d
        ∧ m'.player2_elo_change = some (-d) :=
      fun m' hm' => hpairs m' (List.mem_cons_of_mem m hm')
    have he : (m :: t).enumFrom n = (n, m) :: t.enumFrom (n + 1) := rfl
    rw [he] at hc
    have hcons : allDeltas (m :: t) = d0 :: -d0 :: allDeltas t := by
      rw [allDeltas_cons, hd1, hd2]; rfl
    intro d hd
    rw [hcons] at hd
    by_cases hd0 : d0 = 0
    · have h : (truthyInt m.player1_elo_change && truthyInt m.player2_elo_change) = false := by
        simp [truthyInt, hd1, hd2, hd0]
      rw [show hlCands ((n, m) :: t.enumFrom (n + 1)) = hlCands (t.enumFrom (n + 1))
          from by simp [hlCands, h]] at hc
      rcases List.mem_cons.mp hd with rfl | hd
      · omega
      rcases List.mem_cons.mp hd with rfl | hd
      · omega
      · exact ih (n + 1) hpairs' hc d hd
    · have h : (truthyInt m.player1_elo_change && truthyInt m.player2_elo_change) = true := by
        simp [truthyInt, hd1, hd2, hd0]
      rw [show hlCands ((n, m) :: t.enumFrom (n + 1))
          = (n, false, d0) :: (n, true, -d0) :: hlCands (t.enumFrom (n + 1))
          from by simp [hlCands, truthyInt, hd1, hd2, hd0]] at hc
      have h1 := hc (n, false, d0) (List.mem_cons_self _ _)
      have h2 := hc (n, true, -d0) (List.mem_cons_of_mem _ (List.mem_cons_self _ _))
      have h3 : ∀ c ∈ hlCands (t.enumFrom (n + 1)), c.2.2 ≤ v :=
        fun c hcm => hc c (List.mem_cons_of_mem _ (List.mem_cons_of_mem _ hcm))
      rcases List.mem_cons.mp hd with rfl | hd
      · exact h1
      rcases List.mem_cons.mp hd with rfl | hd
      · exact h2
      · exact ih (n + 1) hpairs' h3 d hd

/-- Mirror of `allDeltas_le_of_cands` for lower bounds. -/
theorem allDeltas_ge_of_cands (ms : List MatchR) (n : ℕ) (v : ℤ)
    (hpairs : ∀ m ∈ ms, ∃ d : ℤ, m.player1_elo_change = some d
      ∧ m.player2_elo_change = some (-d))
    (hv : v ≤ 0)
    (hc : ∀ c ∈ hlCands (ms.enumFrom n), v ≤ c.2.2) :
    ∀ d ∈ allDeltas ms, v ≤ d := by
  induction ms generalizing n with
  | nil => intro d hd; simp [allDeltas] at hd
  | cons m t ih =>
    obtain ⟨d0, hd1, hd2⟩ := hpairs m (List.mem_cons_self m t)
    have hpairs' : ∀ m' ∈ t, ∃ d : ℤ, m'.player1_elo_change = some d
        ∧ m'.player2_elo_change = some (-d) :=
      fun m' hm' => hpairs m' (List.mem_cons_of_mem m hm')
    have he : (m :: t).enumFrom n = (n, m) :: t.enumFrom (n + 1) := rfl
    rw [he] at hc
    have hcons : allDeltas (m :: t) = d0 :: -d0 :: allDeltas t := by
      rw [allDeltas_cons, hd1, hd2]; rfl
    intro d hd
    rw [hcons] at hd
    by_cases hd0 : d0 = 0
    · have h : (truthyInt m.player1_elo_change && truthyInt m.player2_elo_change) = false := by
        simp [truthyInt, hd1, hd2, hd0]
      rw [show hlCands ((n, m) :: t.enumFrom (n + 1)) = hlCands (t.enumFrom (n + 1))
          from by simp [hlCands, h]] at hc
      rcases List.mem_cons.mp hd with rfl | hd
      · omega
      rcases List.mem_cons.mp hd with rfl | hd
      · omega
      · exact ih (n + 1) hpairs' hc d hd
    · have h : (truthyInt m.player1_elo_change && truthyInt m.player2_elo_change) = true := by
        simp [truthyInt, hd1, hd2, hd0]
      rw [show hlCands ((n, m) :: t.enumFrom (n + 1))
          = (n, false, d0) :: (n, true, -d0) :: hlCands (t.enumFrom (n + 1))
          from by simp [hlCands, truthyInt, hd1, hd2, hd0]] at hc
      have h1 := hc (n, false, d0) (List.mem_cons_self _ _)
      have h2 := hc (n, true, -d0) (List.mem_cons_of_mem _ (List.mem_cons_self _ _))
      have h3 : ∀ c ∈ hlCands (t.enumFrom (n + 1)), v ≤ c.2.2 :=
        fun c hcm => hc c (List.mem_cons_of_mem _ (List.mem_cons_of_mem _ hcm))
      rcases List.mem_cons.mp hd with rfl | hd
      · exact h1
      rcases List.mem_cons.mp hd with rfl | hd
      · exact h2
      · exact ih (n + 1) hpairs' h3 d hd

/-- C8: `get_highlights` considers the 10 most recently completed matches
(completion time descending) and reports as biggest gain the single largest
positive per-player delta and as biggest loss the single largest negative
one, with ties resolved in favor of the first candidate in iteration order
(the comparisons are strict); each is reported absent exactly when every
delta among those matches is zero.  Stated under the invariant, maintained
by the scoring code (see `calculate_elo_changes_snd_eq_neg_fst`), that each
completed match stores opposite deltas for its two players. -/
theorem C8_highlights_biggest_gain_and_loss (db : DB)
    (hpairs : ∀ m ∈ recent_matches db, ∃ d : ℤ,
      m.player1_elo_change = some d ∧ m.player2_elo_change = some (-d)) :
    (recent_matches db).length ≤ 10
    ∧ (biggest_gain db = none ↔ ∀ d ∈ allDeltas (recent_matches db), d = 0)
    ∧ (biggest_loss db = none ↔ ∀ d ∈ allDeltas (recent_matches db), d = 0)
    ∧ (∀ i s v, biggest_gain db = some (i, s, v) →
        0 < v ∧ v ∈ allDeltas (recent_matches db)
        ∧ (∀ d ∈ allDeltas (recent_matches db), d ≤ v)
        ∧ ∃ pre post, hlCands ((recent_matches db).enum) = pre ++ (i, s, v) :: post
            ∧ ∀ c ∈ pre, c.2.2 < v)
    ∧ (∀ i s v, biggest_loss db = some (i, s, v) →
        v < 0 ∧ v ∈ allDeltas (recent_matches db)
        ∧ (∀ d ∈ allDeltas (recent_matches db), v ≤ d)
        ∧ ∃ pre post, hlCands ((recent_matches db).enum) = pre ++ (i, s, v) :: post
            ∧ ∀ c ∈ pre, v < c.2.2) := by
  have henum : (recent_matches db).enum = (recent_matches db).enumFrom 0 := rfl
  have hGfold : biggest_gain db
      = (hlCands ((recent_matches db).enum)).foldl stepGain none := by
    rw [biggest_gain, hlGainAux_eq_foldl]
  have hLfold : biggest_loss db
      = (hlCands ((recent_matches db).enum)).foldl stepLoss none := by
    rw [biggest_loss, hlLossAux_eq_foldl]
  have hlen : (recent_matches db).length ≤ 10 := by
    rw [recent_matches]
    exact List.length_take_le _ _
  refine ⟨hlen, ?_, ?_, ?_, ?_⟩
  · rcases foldl_stepGain_none_spec (hlCands ((recent_matches db).enum)) with
      ⟨hnil, hnone⟩ | ⟨c, hc, hall, pre, post, hdecomp, hpre⟩
    · refine iff_of_true (by rw [hGfold, hnone]) ?_
      exact (hlCands_eq_nil_iff (recent_matches db) 0 hpairs).mp
        (by rw [← henum]; exact hnil)
    · refine iff_of_false (by rw [hGfold, hc]; simp) ?_
      intro hall0
      have hcmem : c ∈ hlCands ((recent_matches db).enum) := by
        rw [hdecomp]; exact List.mem_append_right _ (List.mem_cons_self _ _)
      have htwin := hlCands_twin (recent_matches db) 0 hpairs c
        (by rw [← henum]; exact hcmem)
      have hvmem := hlCands_val_mem_allDeltas (recent_matches db) 0 c
        (by rw [← henum]; exact hcmem)
      exact htwin.1 (hall0 _ hvmem)
  · rcases foldl_stepLoss_none_spec (hlCands ((recent_matches db).enum)) with
      ⟨hnil, hnone⟩ | ⟨c, hc, hall, pre, post, hdecomp, hpre⟩
    · refine iff_of_true (by rw [hLfold, hnone]) ?_
      exact (hlCands_eq_nil_iff (recent_matches db) 0 hpairs).mp
        (by rw [← henum]; exact hnil)
    · refine iff_of_false (by rw [hLfold, hc]; simp) ?_
      intro hall0
      have hcmem : c ∈ hlCands ((recent_matches db).enum) := by
        rw [hdecomp]; exact List.mem_append_right _ (List.mem_cons_self _ _)
      have htwin := hlCands_twin (recent_matches db) 0 hpairs c
        (by rw [← henum]; exact hcmem)
      have hvmem := hlCands_val_mem_allDeltas (recent_matches db) 0 c
        (by rw [← henum]; exact hcmem)
      exact htwin.1 (hall0 _ hvmem)
  · intro i s v hv
    rcases foldl_stepGain_none_spec (hlCands ((recent_matches db).enum)) with
      ⟨hnil, hnone⟩ | ⟨c, hc, hall, pre, post, hdecomp, hpre⟩
    · rw [hGfold, hnone] at hv; exact absurd hv (by simp)
    · have hceq : c = (i, s, v) := by
        have h2 := hv
        rw [hGfold, hc] at h2
        exact Option.some.inj h2
      subst hceq
      have hcmem : ((i, s, v) : HLCand) ∈ hlCands ((recent_matches db).enum) := by
        rw [hdecomp]; exact List.mem_append_right _ (List.mem_cons_self _ _)
      obtain ⟨hne, c', hc'mem, hc'val⟩ := hlCands_twin (recent_matches db) 0 hpairs _
        (by rw [← henum]; exact hcmem)
      have hvmem : v ∈ allDeltas (recent_matches db) :=
        hlCands_val_mem_allDeltas (recent_matches db) 0 _ (by rw [← henum]; exact hcmem)
      have hneg : -v ≤ v := by
        have h3 := hall c' (by rw [henum]; exact hc'mem)
        rw [hc'val] at h3
        exact h3
      have hne' : v ≠ 0 := hne
      have hpos : 0 < v := by omega
      refine ⟨hpos, hvmem, ?_, pre, post, hdecomp, hpre⟩
      exact allDeltas_le_of_cands (recent_matches db) 0 v hpairs (le_of_lt hpos)
        (by rw [← henum]; exact hall)
  · intro i s v hv
    rcases foldl_stepLoss_none_spec (hlCands ((recent_matches db).enum)) with
      ⟨hnil, hnone⟩ | ⟨c, hc, hall, pre, post, hdecomp, hpre⟩
    · rw [hLfold, hnone] at hv; exact absurd hv (by simp)
    · have hceq : c = (i, s, v) := by
        have h2 := hv
        rw [hLfold, hc] at h2
        exact Option.some.inj h2
      subst hceq
      have hcmem : ((i, s, v) : HLCand) ∈ hlCands ((recent_matches db).enum) := by
        rw [hdecomp]; exact List.mem_append_right _ (List.mem_cons_self _ _)
      obtain ⟨hne, c', hc'mem, hc'val⟩ := hlCands_twin (recent_matches db) 0 hpairs _
        (by rw [← henum]; exact hcmem)
      have hvmem : v ∈ allDeltas (recent_matches db) :=
        hlCands_val_mem_allDeltas (recent_matches db) 0 _ (by rw [← henum]; exact hcmem)
      have hneg : v ≤ -v := by
        have h3 := hall c' (by rw [henum]; exact hc'mem)
        rw [hc'val] at h3
        exact h3
      have hne' : v ≠ 0 := hne
      have hnegv : v < 0 := by omega
      refine ⟨hnegv, hvmem, ?_, pre, post, hdecomp, hpre⟩
      exact allDeltas_ge_of_cands (recent_matches db) 0 v hpairs (le_of_lt hnegv)
        (by rw [← henum]; exact hall)

theorem C8_highlights_witness :
    (∀ m ∈ recent_matches dbH, ∃ d : ℤ,
      m.player1_elo_change = some d ∧ m.player2_elo_change = some (-d))
    ∧ ((recent_matches dbH).length ≤ 10
      ∧ (biggest_gain dbH = none ↔ ∀ d ∈ allDeltas (recent_matches dbH), d = 0)
      ∧ (biggest_loss dbH = none ↔ ∀ d ∈ allDeltas (recent_matches dbH), d = 0)
      ∧ (∀ i s v, biggest_gain dbH = some (i, s, v) →
          0 < v ∧ v ∈ allDeltas (recent_matches dbH)
          ∧ (∀ d ∈ allDeltas (recent_matches dbH), d ≤ v)
          ∧ ∃ pre post, hlCands ((recent_matches dbH).enum) = pre ++ (i, s, v) :: post
              ∧ ∀ c ∈ pre, c.2.2 < v)
      ∧ (∀ i s v, biggest_loss dbH = some (i, s, v) →
          v < 0 ∧ v ∈ allDeltas (recent_matches dbH)
          ∧ (∀ d ∈ allDeltas (recent_matches dbH), v ≤ d)
          ∧ ∃ pre post, hlCands ((recent_matches dbH).enum) = pre ++ (i, s, v) :: post
              ∧ ∀ c ∈ pre, v < c.2.2)) := by
  have hp : ∀ m ∈ recent_matches dbH, ∃ d : ℤ,
      m.player1_elo_change = some d ∧ m.player2_elo_change = some (-d) := by
    intro m hm
    rw [recent_matches] at hm
    have h1 := List.mem_of_mem_take hm
    have h2 := (List.perm_insertionSort _ _).mem_iff.mp h1
    have h3 := List.mem_of_mem_filter h2
    simp only [dbH, List.map_cons, List.map_nil, List.mem_cons,
      List.not_mem_nil, or_false] at h3
    rcases h3 with rfl | rfl | rfl
    · exact ⟨0, rfl, by norm_num⟩
    · exact ⟨10, rfl, rfl⟩
    · exact ⟨24, rfl, rfl⟩
  exact ⟨hp, C8_highlights_biggest_gain_and_loss dbH hp⟩

end Squash
